import Mathlib

/-!
A shallow embedding of the Exploding Kittens game engine
(`game.py`, `cards.py`) and of the ISMCTS decision machinery
(`mcts_agent.py`), with theorems settling the specification claims.

Conventions of the embedding:
* Python lists become Lean `List`s with the same orientation
  (the top of the deck is the END of the list, as in the source).
* Python's in-place mutation becomes explicit state passing.
* Randomness (`random.shuffle`, `random.randint`, `random.choice`)
  is modelled by oracle parameters; theorems that depend on the
  oracles behaving like the Python functions carry an explicit
  validity hypothesis (`ValidRand`).
* Python code that raises `IndexError` on out-of-range indices is
  modelled totally with `List.getD`/no-op updates; theorems carry
  in-range hypotheses so that the modelled and real behaviours agree.
-/

namespace EK

/-- Card kinds, from `cards.py` `CardType`. -/
inductive CardType where
| EXPLODING_KITTEN
| DEFUSE
| ATTACK
| SKIP
| FAVOR
| SHUFFLE
| SEE_THE_FUTURE
| NOPE
| CAT_TACOCAT
| CAT_CATTERMELON
| CAT_HAIRY_POTATO
| CAT_BEARD_CAT
| CAT_RAINBOW_CAT
deriving DecidableEq, Repr

/-- A card is a value carrying only its kind (`cards.py` `Card`). -/
structure Card where
  card_type : CardType
deriving DecidableEq, Repr

instance : Inhabited Card := ⟨⟨CardType.NOPE⟩⟩

/-- Cat kinds (`cards.py` `CAT_CARDS`). -/
def CAT_CARDS : List CardType :=
[CardType.CAT_TACOCAT, CardType.CAT_CATTERMELON, CardType.CAT_HAIRY_POTATO,
 CardType.CAT_BEARD_CAT, CardType.CAT_RAINBOW_CAT]

/-- Base deck composition (`cards.py` `BASE_DECK_CONFIG`). -/
def BASE_DECK_CONFIG : List (CardType × Nat) :=
[(CardType.ATTACK, 4), (CardType.SKIP, 4), (CardType.FAVOR, 4),
 (CardType.SHUFFLE, 4), (CardType.SEE_THE_FUTURE, 5), (CardType.NOPE, 5),
 (CardType.CAT_TACOCAT, 4), (CardType.CAT_CATTERMELON, 4),
 (CardType.CAT_HAIRY_POTATO, 4), (CardType.CAT_BEARD_CAT, 4),
 (CardType.CAT_RAINBOW_CAT, 4)]

/-- Extra defuse cards placed in the deck (`cards.py` `DEFUSE_IN_DECK`). -/
def DEFUSE_IN_DECK : Nat := 2

/-- A player (`game.py` `Player`). -/
structure Player where
  id : Nat
  hand : List Card
  alive : Bool
deriving DecidableEq, Repr

instance : Inhabited Player := ⟨⟨0, [], true⟩⟩

/-- `Player.has_card`. -/
def Player.has_card (p : Player) (ct : CardType) : Bool :=
p.hand.any (fun c => c.card_type == ct)

/-- `Player.count_card`. -/
def Player.count_card (p : Player) (ct : CardType) : Nat :=
(p.hand.filter (fun c => c.card_type == ct)).length

/-- Helper for `Player.remove_card`: remove the first card of the given
kind from a hand, returning the removed card (if any) and the rest. -/
def removeFirst : List Card → CardType → Option Card × List Card
| [], _ => (none, [])
| c :: rest, ct =>
  if c.card_type = ct then (some c, rest)
  else
    let r := removeFirst rest ct
    (r.1, c :: r.2)

/-- `Player.remove_card`: remove and return one card of the given type. -/
def Player.remove_card (p : Player) (ct : CardType) : Option Card × Player :=
let r := removeFirst p.hand ct
(r.1, { p with hand := r.2 })

/-- `Player.get_matching_cat_pairs`: cat kinds held at least twice.
(The source returns them in `Counter` insertion order, i.e. hand order;
only the set of returned kinds matters to any caller, so we enumerate
them in the fixed `CAT_CARDS` order.) -/
def Player.get_matching_cat_pairs (p : Player) : List CardType :=
CAT_CARDS.filter (fun ct => 2 ≤ p.count_card ct)

/-- The game state (`game.py` `GameState`).  The top of the deck is the
end of the `deck` list, exactly as in the source. -/
structure GameState where
  players : List Player
  deck : List Card
  discard : List Card
  current_player_idx : Nat
  turns_remaining : Nat
  game_over : Bool
  winner : Option Nat
  top_three_known_by : Option Nat
deriving DecidableEq, Repr

/-- `GameState.current_player` (Python raises `IndexError` when the
index is out of range; theorems assume it is in range). -/
def GameState.current_player (s : GameState) : Player :=
s.players.getD s.current_player_idx default

/-- `GameState.alive_players`. -/
def GameState.alive_players (s : GameState) : List Player :=
s.players.filter (fun p => p.alive)

/-- Replace the player at index `i` (models Python's in-place mutation
of the `Player` object stored in `players[i]`). -/
def GameState.setPlayer (s : GameState) (i : Nat) (p : Player) : GameState :=
{ s with players := s.players.set i p }

/-- Python `list.insert(position, card)` semantics: for `position` at
or beyond the length the card is appended at the end (the top).  Used
by `GameState.insert_card`; position 0 is the bottom of the deck. -/
def pyInsert (l : List Card) (position : Nat) (c : Card) : List Card :=
l.take position ++ [c] ++ l.drop position

/-- `GameState.insert_card`: insert into the deck at `position`.
Note that the source does NOT clear `top_three_known_by` here. -/
def GameState.insert_card (s : GameState) (c : Card) (position : Nat) : GameState :=
{ s with deck := pyInsert s.deck position c }

/-- `GameState.peek_top`. -/
def GameState.peek_top (s : GameState) (n : Nat) : List Card :=
if n ≤ s.deck.length then s.deck.drop (s.deck.length - n) else s.deck

/-- `GameState.shuffle_deck`, with `random.shuffle` as the oracle
parameter `shuffle`.  This is the only place that clears
`top_three_known_by`. -/
def GameState.shuffle_deck (s : GameState) (shuffle : List Card → List Card) : GameState :=
{ s with deck := shuffle s.deck, top_three_known_by := none }

/-- Actions (`game.py` `Action` and its subclasses). -/
inductive Action where
| Pass
| PlayCard (card_type : CardType) (target_player_id : Option Nat)
    (steal_card_type : Option CardType)
| PlayCatPair (cat_type : CardType) (target_player_id : Nat)
| PlayNope
| InsertExplodingKitten (position : Nat)
deriving DecidableEq, Repr

/-- Randomness oracle: `shuffle` stands for `random.shuffle` and
`randint a b` for `random.randint(a, b)` (inclusive bounds). -/
structure Rand where
  shuffle : List Card → List Card
  randint : Nat → Nat → Nat

/-- An oracle is valid when it behaves like the Python functions:
shuffling permutes and `randint` stays inside its inclusive bounds. -/
def ValidRand (r : Rand) : Prop :=
(∀ l, List.Perm (r.shuffle l) l) ∧ ∀ a b, a ≤ b → a ≤ r.randint a b ∧ r.randint a b ≤ b

/-- The trivial oracle: identity shuffle, `randint a b = a`. -/
def idRand : Rand :=
{ shuffle := id, randint := fun a _ => a }

/-- The game object (`game.py` `Game`). -/
structure Game where
  num_players : Nat
  state : GameState
  action_history : List (Nat × Action)
deriving DecidableEq, Repr

instance : Inhabited Game :=
  ⟨{ num_players := 0,
     state := { players := [], deck := [], discard := [], current_player_idx := 0,
                turns_remaining := 1, game_over := false, winner := none,
                top_three_known_by := none },
     action_history := [] }⟩

/-- The `while not players[next_idx].alive` scan shared by `_do_attack`
and `_advance_player`: step cyclically (mod `num`) until an alive
player is found.  Fuel bounds the search; the source loops forever
when no player is alive, which no reachable state exhibits — with the
fuel exhausted we return the last candidate. -/
def findAlive (players : List Player) (num : Nat) : Nat → Nat → Nat
| 0, idx => idx
| Nat.succ fuel, idx =>
  if (players.getD idx default).alive then idx
  else findAlive players num fuel ((idx + 1) % num)

/-- The index the engine moves to when the current turn ends:
start at `(current + 1) % num_players` and skip dead players. -/
def Game.nextAliveIdx (g : Game) : Nat :=
findAlive g.state.players g.num_players g.num_players
  ((g.state.current_player_idx + 1) % g.num_players)

/-- `Game._do_attack`: move to the next alive player and set
`turns_remaining` to 2 (unconditionally — no stacking). -/
def Game.do_attack (g : Game) : Game :=
{ g with state := { g.state with
    current_player_idx := g.nextAliveIdx, turns_remaining := 2 } }

/-- `Game._advance_player`. -/
def Game.advance_player (g : Game) : Game :=
{ g with state := { g.state with current_player_idx := g.nextAliveIdx } }

/-- `Game._do_skip`: decrement `turns_remaining`; on reaching 0 advance
to the next alive player and reset to 1.  (`turns_remaining` is a
`Nat`; the Python test `<= 0` after a decrement coincides with `= 0`.) -/
def Game.do_skip (g : Game) : Game :=
let t := g.state.turns_remaining - 1
if t = 0 then
  let g2 := Game.advance_player { g with state := { g.state with turns_remaining := t } }
  { g2 with state := { g2.state with turns_remaining := 1 } }
else { g with state := { g.state with turns_remaining := t } }

/-- `Game._end_turn` (textually the same logic as `_do_skip`). -/
def Game.end_turn (g : Game) : Game :=
let t := g.state.turns_remaining - 1
if t = 0 then
  let g2 := Game.advance_player { g with state := { g.state with turns_remaining := t } }
  { g2 with state := { g2.state with turns_remaining := 1 } }
else { g with state := { g.state with turns_remaining := t } }

/-- `Game._check_game_over`: one alive player left ends the game. -/
def Game.check_game_over (g : Game) : Game :=
let alive := g.state.alive_players
if alive.length = 1 then
  { g with state := { g.state with
      game_over := true, winner := some ((alive.getD 0 default).id) } }
else g

/-- `Game.is_over`. -/
def Game.is_over (g : Game) : Bool :=
g.state.game_over

/-- `Game.get_winner`. -/
def Game.get_winner (g : Game) : Option Nat :=
g.state.winner

/-- `Game.get_legal_actions` for a given player id. -/
def Game.get_legal_actions (g : Game) (player_id : Nat) : List Action :=
let player := g.state.players.getD player_id default
let actions : List Action := [Action.Pass]
let actions := actions ++
  (([CardType.ATTACK, CardType.SKIP, CardType.SHUFFLE,
     CardType.SEE_THE_FUTURE].filter (fun ct => player.has_card ct)).map
    (fun ct => Action.PlayCard ct none none))
let actions := actions ++
  (if player.has_card CardType.FAVOR then
    (g.state.players.filter
      (fun o => (o.id != player_id) && o.alive && (o.hand.length != 0))).map
      (fun o => Action.PlayCard CardType.FAVOR (some o.id) none)
  else [])
let actions := actions ++
  (player.get_matching_cat_pairs.flatMap (fun ctype =>
    (g.state.players.filter
      (fun o => (o.id != player_id) && o.alive && (o.hand.length != 0))).map
      (fun o => Action.PlayCatPair ctype o.id)))
actions

/-- `Game.get_insert_positions`. -/
def Game.get_insert_positions (g : Game) : List Nat :=
List.range (g.state.deck.length + 1)

/-- Steal step shared by FAVOR and cat pairs: if the target's hand is
non-empty, pop the hand card at index `randint 0 (len - 1)` from the
target and append it to the acting player's hand.  Re-fetching the
acting player after updating the target reproduces Python's aliasing
(the two may be the same object).  For a target id beyond the player
list the source raises `IndexError` at `players[target_player_id]`;
here `getD` yields the default (empty-handed) player and the steal is
a no-op, so theorems that depend on this step carry legality/in-range
hypotheses under which the ids are genuine players and the behaviours
coincide. -/
def stealStep (rand : Rand) (s : GameState) (actorIdx targetId : Nat) : GameState :=
let tgt := s.players.getD targetId default
if tgt.hand.length != 0 then
  let k := rand.randint 0 (tgt.hand.length - 1)
  let stolen := tgt.hand.getD k default
  let s2 := s.setPlayer targetId { tgt with hand := tgt.hand.eraseIdx k }
  let actor := s2.players.getD actorIdx default
  s2.setPlayer actorIdx { actor with hand := actor.hand ++ [stolen] }
else s

/-- `Game._do_draw`: resolve the draw at the end of a turn.  With an
empty deck nothing is drawn and the turn just ends.  Drawing the
exploding kitten auto-defuses when possible (reinsertion position is
`randint 0 len`, as in the source) and otherwise eliminates the
player; any other card goes to the drawer's hand. -/
def Game.do_draw (rand : Rand) (g : Game) : Game :=
let idx := g.state.current_player_idx
let player := g.state.current_player
if g.state.deck.isEmpty then g.end_turn
else
  let card := g.state.deck.getLast?.getD default
  let g1 : Game := { g with state := { g.state with deck := g.state.deck.dropLast } }
  if card.card_type = CardType.EXPLODING_KITTEN then
    if player.has_card CardType.DEFUSE then
      let r := player.remove_card CardType.DEFUSE
      let s2 := (g1.state.setPlayer idx r.2)
      let s3 := { s2 with discard := s2.discard ++ r.1.toList }
      let pos := rand.randint 0 s3.deck.length
      let s4 := s3.insert_card card pos
      Game.end_turn { g1 with state := s4 }
    else
      let s2 := g1.state.setPlayer idx { player with alive := false }
      let s3 := { s2 with discard := s2.discard ++ [card] }
      Game.end_turn { g1 with state := s3 }
  else
    let s2 := g1.state.setPlayer idx { player with hand := player.hand ++ [card] }
    Game.end_turn { g1 with state := s2 }

/-- `Game.execute_action`: apply an action.  Note that the source
performs NO legality check: any action is applied as-is, the action is
recorded into `action_history`, and the win condition is re-checked.
Two error paths of the source are collapsed in this total model and
are therefore excluded by hypotheses in the theorems that rely on
them: when `PlayCard` names a kind the hand does not contain, the
source appends Python `None` to the discard (modelled as a no-op
append), and when a FAVOR or cat-pair target id is out of range or
`None`, the source raises `IndexError`/`TypeError` at
`players[target_player_id]` BEFORE the history append (modelled as a
no-op steal, see `stealStep`).  Both situations are unreachable for
actions from `get_legal_actions` in a well-formed state, where the
model agrees with the source. -/
def Game.execute_action (rand : Rand) (g : Game) (a : Action) : Game :=
let idx := g.state.current_player_idx
let player := g.state.current_player
let g1 : Game :=
  match a with
  | Action.Pass => g.do_draw rand
  | Action.PlayCard ct target _steal =>
    let r := player.remove_card ct
    let s := (g.state.setPlayer idx r.2)
    let s := { s with discard := s.discard ++ r.1.toList }
    let g2 : Game := { g with state := s }
    match ct with
    | CardType.ATTACK => g2.do_attack
    | CardType.SKIP => g2.do_skip
    | CardType.SHUFFLE => { g2 with state := g2.state.shuffle_deck rand.shuffle }
    | CardType.SEE_THE_FUTURE =>
      { g2 with state := { g2.state with top_three_known_by := some player.id } }
    | CardType.FAVOR =>
      match target with
      | some tid => { g2 with state := stealStep rand g2.state idx tid }
      | none => g2
    | _ => g2
  | Action.PlayCatPair ctype tid =>
    let p1 := (player.remove_card ctype).2
    let p2 := (p1.remove_card ctype).2
    let s := (g.state.setPlayer idx p2)
    let s := { s with discard := s.discard ++ [⟨ctype⟩, ⟨ctype⟩] }
    { g with state := stealStep rand s idx tid }
  | Action.PlayNope => g
  | Action.InsertExplodingKitten pos =>
    { g with state := g.state.insert_card ⟨CardType.EXPLODING_KITTEN⟩ pos }
let g2 : Game := { g1 with action_history := g1.action_history ++ [(player.id, a)] }
g2.check_game_over

/-- Pop one card from the top (end) of the deck; `none` when empty
(Python raises `IndexError` there). -/
def popLast (d : List Card) : Option (Card × List Card) :=
match d.getLast? with
| some c => some (c, d.dropLast)
| none => none

/-- Deal `n` cards off the top of the deck, in draw order. -/
def dealN : Nat → List Card → Option (List Card × List Card)
| 0, d => some ([], d)
| Nat.succ n, d =>
  match popLast d with
  | none => none
  | some (c, d2) =>
    match dealN n d2 with
    | none => none
    | some (cs, d3) => some (c :: cs, d3)

/-- Deal each listed player 4 cards off the deck plus one defuse
(the per-player loop of `Game._setup_game`). -/
def dealPlayers : List Nat → List Card → Option (List Player × List Card)
| [], d => some ([], d)
| i :: rest, d =>
  match dealN 4 d with
  | none => none
  | some (hand, d2) =>
    match dealPlayers rest d2 with
    | none => none
    | some (ps, d3) =>
      some ({ id := i, hand := hand ++ [⟨CardType.DEFUSE⟩], alive := true } :: ps, d3)

/-- The base deck before shuffling (`Game._setup_game` deck build). -/
def buildBaseDeck : List Card :=
(BASE_DECK_CONFIG.map (fun p => List.replicate p.2 (⟨p.1⟩ : Card))).flatten

/-- `Game.__init__` / `Game._setup_game`, with `random.shuffle` as the
oracle `shuffle`.  The source performs NO validation of `num_players`:
construction only fails (Python `IndexError`, modelled as `none`) when
the 46-card base deck cannot supply 4 cards per player. -/
def Game.setup (shuffle : List Card → List Card) (num_players : Nat) : Option Game :=
match dealPlayers (List.range num_players) (shuffle buildBaseDeck) with
| none => none
| some (players, deck2) =>
  let deck3 := deck2 ++ List.replicate DEFUSE_IN_DECK (⟨CardType.DEFUSE⟩ : Card)
  let deck4 := shuffle deck3
  let deck5 := deck4 ++ List.replicate (num_players - 1)
    (⟨CardType.EXPLODING_KITTEN⟩ : Card)
  let deck6 := shuffle deck5
  some { num_players := num_players,
         state := { players := players, deck := deck6, discard := [],
                    current_player_idx := 0, turns_remaining := 1,
                    game_over := false, winner := none,
                    top_three_known_by := none },
         action_history := [] }

/-- Total card count: deck + every hand (alive or eliminated) + discard. -/
def GameState.cardCount (s : GameState) : Nat :=
s.deck.length + (s.players.map (fun p => p.hand.length)).sum + s.discard.length

/-- Exploding kittens still in circulation: in the deck or in an alive
player's hand. -/
def GameState.ekInCirculation (s : GameState) : Nat :=
(s.deck.filter (fun c => c.card_type == CardType.EXPLODING_KITTEN)).length +
  ((s.players.filter (fun p => p.alive)).map
    (fun p => (p.hand.filter
      (fun c => c.card_type == CardType.EXPLODING_KITTEN)).length)).sum

/-- The playout loop shared by `simulate_random_playout` and
`simulate_with_heuristics` (`mcts_agent.py`): while the game is not
over and fewer than `max_moves` actions were executed, pick an action
among the legal ones (via the `choose` oracle — `random.choice` in the
random playout, `select_heuristic_action` in the heuristic one) and
execute it.  The second component counts executed actions; fuel is the
number of moves still allowed. -/
def playoutLoop (rand : Rand) (choose : Game → List Action → Action) :
    Nat → Game → Game × Nat
| 0, g => (g, 0)
| Nat.succ fuel, g =>
  if g.is_over then (g, 0)
  else
    let legal := g.get_legal_actions g.state.current_player_idx
    if legal.isEmpty then (g, 0)
    else
      let g2 := g.execute_action rand (choose g legal)
      let r := playoutLoop rand choose fuel g2
      (r.1, r.2 + 1)

/-- `simulate_random_playout`: play out up to `max_moves` uniformly
random actions (the `choice` oracle stands for `random.choice`) and
return the winner (with the number of executed moves alongside). -/
def simulate_random_playout (rand : Rand) (choice : Game → List Action → Action)
    (g : Game) (max_moves : Nat) : Option Nat × Nat :=
  let r := playoutLoop rand choice max_moves g
  ((r.1).get_winner, r.2)

/-- `simulate_with_heuristics`: the same bounded loop with actions
picked by `select_heuristic_action` (here the oracle
`select_heuristic_action`, since that function is randomized). -/
def simulate_with_heuristics (rand : Rand)
    (select_heuristic_action : Game → List Action → Action)
    (g : Game) (max_moves : Nat) : Option Nat × Nat :=
  let r := playoutLoop rand select_heuristic_action max_moves g
  ((r.1).get_winner, r.2)

/-- The invariant that a winner is only ever recorded together with
`game_over` (true of the initial state and preserved by the engine). -/
def winnerConsistent (g : Game) : Prop :=
g.state.game_over = false → g.state.winner = none

/-- A node of the MCTS tree (`mcts_agent.py` `MCTSNode`): visit count
and cumulative wins.  The parent back-reference is modelled by passing
the parent's visit count to `ucb1` directly, which is all the source
reads from it; children are modelled as the list of nodes iterated by
`best_child` (Python dict values in insertion order). -/
structure MCTSNode where
  visits : Nat
  wins : ℝ

instance : Inhabited MCTSNode := ⟨⟨0, 0⟩⟩

/-- `MCTSNode.ucb1`: `+∞` for an unvisited node, otherwise
`wins/visits + exploration * sqrt(log(parent.visits)/visits)`.
Python floats are modelled as reals, `float('inf')` as `⊤`. -/
noncomputable def ucb1 (parentVisits : Nat) (exploration : ℝ) (n : MCTSNode) :
    WithTop ℝ :=
if n.visits = 0 then ⊤
else ((n.wins / (n.visits : ℝ) +
  exploration * Real.sqrt (Real.log (parentVisits : ℝ) / (n.visits : ℝ)) : ℝ) : WithTop ℝ)

/-- `MCTSNode.best_child`: the child with the highest `ucb1` value.
Python's `max` keeps the first of several maxima, hence the
strictly-greater test in the fold.  `none` on an empty children list
(where Python `max` raises). -/
noncomputable def best_child (parentVisits : Nat) (exploration : ℝ) :
    List MCTSNode → Option MCTSNode
| [] => none
| c :: cs => some (cs.foldl
    (fun best x =>
      if ucb1 parentVisits exploration best < ucb1 parentVisits exploration x
      then x else best) c)

/-- Pop `n` cards off the END of the pool (Python
`unknown_cards.pop()` in a loop guarded by `if unknown_cards:`),
returning them in pop order together with the remaining pool. -/
def popMany : Nat → List Card → List Card × List Card
| 0, pool => ([], pool)
| Nat.succ k, pool =>
  match pool.getLast? with
  | none => ([], pool)
  | some c =>
    let r := popMany k pool.dropLast
    (c :: r.1, r.2)

/-- The redistribution loop of `determinize_game`: walk the (already
hand-emptied) player list in order and give each alive opponent as
many pool cards as that player holds in the TRUE state `orig`
(`len(game.state.players[player.id].hand)`, indexed by id). -/
def redistribute (orig : List Player) (observer_id : Nat) :
    List Player → List Card → List Player × List Card
| [], pool => ([], pool)
| p :: rest, pool =>
  if (p.id != observer_id) && p.alive then
    let n := (orig.getD p.id default).hand.length
    let r1 := popMany n pool
    let r2 := redistribute orig observer_id rest r1.2
    ({ p with hand := p.hand ++ r1.1 } :: r2.1, r2.2)
  else
    let r2 := redistribute orig observer_id rest pool
    (p :: r2.1, r2.2)

/-- `determinize_game` (`mcts_agent.py`): clone the game (pure values,
so the clone is the game itself), pool every alive opponent's hand
together with the deck — keeping the top three deck cards aside when
the observer holds the known-top fact and the deck has at least 3
cards — shuffle the pool (oracle `shuffle`), redistribute original
hand sizes to the alive opponents, make the remaining pool the new
deck and put the kept top three back on top. -/
def determinize_game (shuffle : List Card → List Card) (g : Game)
    (observer_id : Nat) : Game :=
  let players1 := g.state.players.map
    (fun p => if (p.id != observer_id) && p.alive then { p with hand := [] } else p)
  let pool1 := ((g.state.players.filter
    (fun p => (p.id != observer_id) && p.alive)).map (fun p => p.hand)).flatten
  let observer_knows_top := g.state.top_three_known_by == some observer_id
  let keep := observer_knows_top && decide (3 ≤ g.state.deck.length)
  let top_three := g.state.deck.drop (g.state.deck.length - 3)
  let pool2 := if keep then pool1 ++ g.state.deck.take (g.state.deck.length - 3)
    else pool1 ++ g.state.deck
  let pool3 := shuffle pool2
  let r := redistribute g.state.players observer_id players1 pool3
  let deck2 := if keep then r.2 ++ top_three else r.2
  { g with state := { g.state with players := r.1, deck := deck2 } }

/-- Well-formedness carried by every game the setup produces: the
current-player index is in range and `num_players` matches the player
list (neither ever changes during play). -/
def WfGame (g : Game) : Prop :=
g.state.current_player_idx < g.state.players.length ∧
  g.num_players = g.state.players.length

/-- States reachable from `g` by executing legal actions (with valid
randomness oracles). -/
inductive ReachableFrom : Game → Game → Prop
| refl (g : Game) : ReachableFrom g g
| step (g g2 : Game) (rand : Rand) (a : Action) :
    ReachableFrom g g2 → ValidRand rand →
    a ∈ g2.get_legal_actions g2.state.current_player_idx →
    ReachableFrom g (g2.execute_action rand a)

/-! ### Helper lemmas about the engine -/

theorem cgo_players (g : Game) :
    (g.check_game_over).state.players = g.state.players := by
  unfold Game.check_game_over
  by_cases h : g.state.alive_players.length = 1 <;> simp [h]

theorem cgo_deck (g : Game) :
    (g.check_game_over).state.deck = g.state.deck := by
  unfold Game.check_game_over
  by_cases h : g.state.alive_players.length = 1 <;> simp [h]

theorem cgo_discard (g : Game) :
    (g.check_game_over).state.discard = g.state.discard := by
  unfold Game.check_game_over
  by_cases h : g.state.alive_players.length = 1 <;> simp [h]

theorem cgo_idx (g : Game) :
    (g.check_game_over).state.current_player_idx = g.state.current_player_idx := by
  unfold Game.check_game_over
  by_cases h : g.state.alive_players.length = 1 <;> simp [h]

theorem cgo_turns (g : Game) :
    (g.check_game_over).state.turns_remaining = g.state.turns_remaining := by
  unfold Game.check_game_over
  by_cases h : g.state.alive_players.length = 1 <;> simp [h]

theorem cgo_top3 (g : Game) :
    (g.check_game_over).state.top_three_known_by = g.state.top_three_known_by := by
  unfold Game.check_game_over
  by_cases h : g.state.alive_players.length = 1 <;> simp [h]

theorem cgo_history (g : Game) :
    (g.check_game_over).action_history = g.action_history := by
  unfold Game.check_game_over
  by_cases h : g.state.alive_players.length = 1 <;> simp [h]

theorem cgo_num (g : Game) :
    (g.check_game_over).num_players = g.num_players := by
  unfold Game.check_game_over
  by_cases h : g.state.alive_players.length = 1 <;> simp [h]

theorem do_attack_history (g : Game) :
    (g.do_attack).action_history = g.action_history := rfl

theorem end_turn_history (g : Game) :
    (g.end_turn).action_history = g.action_history := by
  unfold Game.end_turn Game.advance_player
  by_cases h : g.state.turns_remaining - 1 = 0 <;> simp [h]

theorem do_skip_history (g : Game) :
    (g.do_skip).action_history = g.action_history := by
  unfold Game.do_skip Game.advance_player
  by_cases h : g.state.turns_remaining - 1 = 0 <;> simp [h]

theorem do_draw_history (rand : Rand) (g : Game) :
    (g.do_draw rand).action_history = g.action_history := by
  unfold Game.do_draw
  by_cases h : g.state.deck.isEmpty
  · simp [h, end_turn_history]
  · simp only [h, Bool.false_eq_true, if_false]
    split <;> (try split) <;> simp [end_turn_history]

theorem end_turn_players (g : Game) :
    (g.end_turn).state.players = g.state.players := by
  unfold Game.end_turn Game.advance_player
  by_cases h : g.state.turns_remaining - 1 = 0 <;> simp [h]

theorem end_turn_deck (g : Game) :
    (g.end_turn).state.deck = g.state.deck := by
  unfold Game.end_turn Game.advance_player
  by_cases h : g.state.turns_remaining - 1 = 0 <;> simp [h]

theorem end_turn_discard (g : Game) :
    (g.end_turn).state.discard = g.state.discard := by
  unfold Game.end_turn Game.advance_player
  by_cases h : g.state.turns_remaining - 1 = 0 <;> simp [h]

theorem end_turn_top3 (g : Game) :
    (g.end_turn).state.top_three_known_by = g.state.top_three_known_by := by
  unfold Game.end_turn Game.advance_player
  by_cases h : g.state.turns_remaining - 1 = 0 <;> simp [h]

theorem end_turn_num (g : Game) :
    (g.end_turn).num_players = g.num_players := by
  unfold Game.end_turn Game.advance_player
  by_cases h : g.state.turns_remaining - 1 = 0 <;> simp [h]

/-- The turn counter and player index after `_end_turn`. -/
theorem end_turn_turns (g : Game) :
    (g.state.turns_remaining - 1 = 0 →
      (g.end_turn).state.turns_remaining = 1 ∧
      (g.end_turn).state.current_player_idx = g.nextAliveIdx) ∧
    (g.state.turns_remaining - 1 ≠ 0 →
      (g.end_turn).state.turns_remaining = g.state.turns_remaining - 1 ∧
      (g.end_turn).state.current_player_idx = g.state.current_player_idx) := by
  unfold Game.end_turn Game.advance_player Game.nextAliveIdx
  by_cases h : g.state.turns_remaining - 1 = 0 <;> simp [h]

/-- `findAlive` reads only the alive flags of the players. -/
theorem findAlive_congr (ps qs : List Player) (num : Nat)
    (h : ps.map Player.alive = qs.map Player.alive) :
    ∀ fuel idx, findAlive ps num fuel idx = findAlive qs num fuel idx := by
  intro fuel
  induction fuel with
  | zero => intro idx; rfl
  | succ n ih =>
    intro idx
    have halive : (ps.getD idx default).alive = (qs.getD idx default).alive := by
      have h1 : (ps.map Player.alive)[idx]? = (qs.map Player.alive)[idx]? := by rw [h]
      rw [List.getElem?_map, List.getElem?_map] at h1
      rw [List.getD_eq_getElem?_getD, List.getD_eq_getElem?_getD]
      cases h2 : ps[idx]? with
      | none =>
        rw [h2] at h1
        cases h3 : qs[idx]? with
        | none => rfl
        | some q => rw [h3] at h1; simp at h1
      | some p =>
        rw [h2] at h1
        cases h3 : qs[idx]? with
        | none => rw [h3] at h1; simp at h1
        | some q =>
          rw [h3] at h1
          simpa using h1
    unfold findAlive
    rw [halive]
    by_cases ha : (qs.getD idx default).alive <;> simp [ha, ih]

/-- Setting a player back with an unchanged alive flag does not change
the alive map. -/
theorem map_alive_set (ps : List Player) (i : Nat) (q : Player)
    (h : q.alive = (ps.getD i default).alive) :
    (ps.set i q).map Player.alive = ps.map Player.alive := by
  rcases Nat.lt_or_ge i ps.length with hi | hi
  · apply List.ext_getElem
    · simp
    · intro m h1 h2
      rcases eq_or_ne i m with rfl | hm
      · rw [List.getElem_map, List.getElem_map, List.getElem_set_self]
        rw [h]
        rw [List.getD_eq_getElem?_getD, List.getElem?_eq_getElem hi]
        rfl
      · rw [List.getElem_map, List.getElem_map, List.getElem_set_of_ne hm]
  · rw [List.set_eq_of_length_le hi]

/-- Removing a card never changes the alive flag. -/
theorem remove_card_alive (p : Player) (ct : CardType) :
    ((p.remove_card ct).2).alive = p.alive := rfl

theorem end_turn_go (g : Game) :
    (g.end_turn).state.game_over = g.state.game_over := by
  unfold Game.end_turn Game.advance_player
  by_cases h : g.state.turns_remaining - 1 = 0 <;> simp [h]

theorem end_turn_winner (g : Game) :
    (g.end_turn).state.winner = g.state.winner := by
  unfold Game.end_turn Game.advance_player
  by_cases h : g.state.turns_remaining - 1 = 0 <;> simp [h]

theorem do_skip_go (g : Game) :
    (g.do_skip).state.game_over = g.state.game_over := by
  unfold Game.do_skip Game.advance_player
  by_cases h : g.state.turns_remaining - 1 = 0 <;> simp [h]

theorem do_skip_winner (g : Game) :
    (g.do_skip).state.winner = g.state.winner := by
  unfold Game.do_skip Game.advance_player
  by_cases h : g.state.turns_remaining - 1 = 0 <;> simp [h]

theorem do_draw_go (rand : Rand) (g : Game) :
    (g.do_draw rand).state.game_over = g.state.game_over := by
  unfold Game.do_draw
  by_cases h : g.state.deck.isEmpty
  · simp [h, end_turn_go]
  · simp only [h, Bool.false_eq_true, if_false]
    split <;> (try split) <;> simp [end_turn_go, GameState.setPlayer, GameState.insert_card]

theorem do_draw_winner (rand : Rand) (g : Game) :
    (g.do_draw rand).state.winner = g.state.winner := by
  unfold Game.do_draw
  by_cases h : g.state.deck.isEmpty
  · simp [h, end_turn_winner]
  · simp only [h, Bool.false_eq_true, if_false]
    split <;> (try split) <;>
      simp [end_turn_winner, GameState.setPlayer, GameState.insert_card]

theorem stealStep_go (rand : Rand) (s : GameState) (i t : Nat) :
    (stealStep rand s i t).game_over = s.game_over := by
  unfold stealStep
  dsimp only
  split <;> rfl

theorem stealStep_winner (rand : Rand) (s : GameState) (i t : Nat) :
    (stealStep rand s i t).winner = s.winner := by
  unfold stealStep
  dsimp only
  split <;> rfl

theorem stealStep_deck (rand : Rand) (s : GameState) (i t : Nat) :
    (stealStep rand s i t).deck = s.deck := by
  unfold stealStep
  dsimp only
  split <;> rfl

theorem stealStep_discard (rand : Rand) (s : GameState) (i t : Nat) :
    (stealStep rand s i t).discard = s.discard := by
  unfold stealStep
  dsimp only
  split <;> rfl

theorem stealStep_top3 (rand : Rand) (s : GameState) (i t : Nat) :
    (stealStep rand s i t).top_three_known_by = s.top_three_known_by := by
  unfold stealStep
  dsimp only
  split <;> rfl

/-- A state `check_game_over` leaves not-over is left entirely alone. -/
theorem check_game_over_of_not_over (g : Game)
    (h : (g.check_game_over).state.game_over = false) : g.check_game_over = g := by
  unfold Game.check_game_over at h ⊢
  by_cases hl : g.state.alive_players.length = 1
  · rw [if_pos hl] at h; simp at h
  · rw [if_neg hl]

/-- `execute_action` preserves the winner/game-over consistency
invariant, whatever the action and the oracle. -/
theorem exec_winnerConsistent (rand : Rand) (g : Game) (a : Action)
    (h : winnerConsistent g) : winnerConsistent (g.execute_action rand a) := by
  have key : ∀ g2 : Game, g2.state.game_over = g.state.game_over →
      g2.state.winner = g.state.winner → winnerConsistent (g2.check_game_over) := by
    intro g2 hgo hw hfalse
    have heq := check_game_over_of_not_over g2 hfalse
    rw [heq] at hfalse ⊢
    rw [hw]
    exact h (hgo ▸ hfalse)
  unfold Game.execute_action
  cases a with
  | Pass => exact key _ (by simp [do_draw_go]) (by simp [do_draw_winner])
  | PlayCard ct target steal =>
    cases ct <;> cases target <;>
      exact key _
        (by simp [do_skip_go, stealStep_go, GameState.setPlayer,
          GameState.shuffle_deck, Game.do_attack])
        (by simp [do_skip_winner, stealStep_winner, GameState.setPlayer,
          GameState.shuffle_deck, Game.do_attack])
  | PlayCatPair ctype tid =>
    exact key _ (by simp [stealStep_go, GameState.setPlayer])
      (by simp [stealStep_winner, GameState.setPlayer])
  | PlayNope => exact key _ rfl rfl
  | InsertExplodingKitten pos =>
    exact key _ (by simp [GameState.insert_card]) (by simp [GameState.insert_card])

/-- The playout loop runs at most `fuel` actions and preserves the
winner-consistency invariant. -/
theorem playoutLoop_spec (rand : Rand) (choose : Game → List Action → Action) :
    ∀ (fuel : Nat) (g : Game), winnerConsistent g →
      (playoutLoop rand choose fuel g).2 ≤ fuel ∧
      winnerConsistent (playoutLoop rand choose fuel g).1 := by
  intro fuel
  induction fuel with
  | zero => intro g h; exact ⟨Nat.le_refl 0, h⟩
  | succ k ih =>
    intro g h
    unfold playoutLoop
    by_cases hover : g.is_over = true
    · simp only [hover, if_true]
      exact ⟨Nat.zero_le _, h⟩
    · simp only [Bool.not_eq_true] at hover
      simp only [hover, Bool.false_eq_true, if_false]
      by_cases hemp : (g.get_legal_actions g.state.current_player_idx).isEmpty = true
      · simp only [hemp, if_true]
        exact ⟨Nat.zero_le _, h⟩
      · simp only [Bool.not_eq_true] at hemp
        simp only [hemp, Bool.false_eq_true, if_false]
        have h2 := exec_winnerConsistent rand g
          (choose g (g.get_legal_actions g.state.current_player_idx)) h
        obtain ⟨hle, hwc⟩ := ih _ h2
        exact ⟨Nat.succ_le_succ hle, hwc⟩

/-- A removal attempt succeeds exactly when the hand holds the kind. -/
theorem removeFirst_isSome (h : List Card) (ct : CardType) :
    ((removeFirst h ct).1).isSome = h.any (fun c => c.card_type == ct) := by
  induction h with
  | nil => rfl
  | cons c rest ih =>
    unfold removeFirst
    by_cases hc : c.card_type = ct
    · simp [hc]
    · simp only [hc, if_false, List.any_cons]
      rw [← ih]
      have : (c.card_type == ct) = false := by simp [hc]
      simp [this]

/-- Popping the top decomposes the deck. -/
theorem popLast_decomp (d : List Card) (c : Card) (d2 : List Card)
    (h : popLast d = some (c, d2)) : d = d2 ++ [c] := by
  unfold popLast at h
  cases hg : d.getLast? with
  | none => rw [hg] at h; simp at h
  | some c2 =>
    rw [hg] at h
    simp only [Option.some.injEq, Prod.mk.injEq] at h
    obtain ⟨h1, h2⟩ := h
    subst h1
    subst h2
    have hne : d ≠ [] := by intro he; rw [he] at hg; simp at hg
    have h3 := List.dropLast_append_getLast hne
    rw [List.getLast?_eq_getLast _ hne, Option.some.injEq] at hg
    rw [← hg]
    exact h3.symm

/-- `dealN` deals exactly `n` cards and only rearranges the deck. -/
theorem dealN_spec : ∀ (n : Nat) (d h d' : List Card),
    dealN n d = some (h, d') → h.length = n ∧ List.Perm d (d' ++ h) := by
  intro n
  induction n with
  | zero =>
    intro d h d' hd
    unfold dealN at hd
    simp only [Option.some.injEq, Prod.mk.injEq] at hd
    obtain ⟨h1, h2⟩ := hd
    subst h1; subst h2
    simp
  | succ k ih =>
    intro d h d' hd
    unfold dealN at hd
    cases hp : popLast d with
    | none => rw [hp] at hd; simp at hd
    | some pr =>
      obtain ⟨c, d2⟩ := pr
      rw [hp] at hd
      dsimp only at hd
      cases hq : dealN k d2 with
      | none => rw [hq] at hd; simp at hd
      | some pr2 =>
        obtain ⟨cs, d3⟩ := pr2
        rw [hq] at hd
        simp only [Option.some.injEq, Prod.mk.injEq] at hd
        obtain ⟨h1, h2⟩ := hd
        rw [← h1, ← h2]
        obtain ⟨hl, hperm⟩ := ih d2 cs d3 hq
        refine ⟨by simp [hl], ?_⟩
        have hdec := popLast_decomp d c d2 hp
        have hp1 : List.Perm d ((d3 ++ cs) ++ [c]) := by
          rw [hdec]; exact hperm.append_right [c]
        have hp2 : List.Perm ((d3 ++ cs) ++ [c]) (d3 ++ (c :: cs)) := by
          rw [List.append_assoc]
          exact (List.perm_append_singleton c cs).append_left d3
        exact hp1.trans hp2

/-- `dealN` succeeds whenever the deck has enough cards. -/
theorem dealN_total : ∀ (n : Nat) (d : List Card),
    n ≤ d.length → (dealN n d).isSome = true := by
  intro n
  induction n with
  | zero => intro d _; rfl
  | succ k ih =>
    intro d hn
    have hne : d ≠ [] := by
      intro he; rw [he] at hn; simp at hn
    unfold dealN popLast
    rw [List.getLast?_eq_getLast _ hne]
    have hlen : k ≤ d.dropLast.length := by
      rw [List.length_dropLast]
      omega
    have := ih d.dropLast hlen
    cases hq : dealN k d.dropLast with
    | none => rw [hq] at this; simp at this
    | some pr => simp [hq]

/-- What the per-player dealing loop produces: one player per id, each
alive with a 4-card hand drawn from the deck plus a final defuse, and
a remaining deck drawn from the original. -/
theorem dealPlayers_spec : ∀ (ids : List Nat) (d : List Card) (ps : List Player)
    (d' : List Card), dealPlayers ids d = some (ps, d') →
    ps.length = ids.length ∧ d' ⊆ d ∧
    ∀ p ∈ ps, p.alive = true ∧
      ∃ h4, p.hand = h4 ++ [⟨CardType.DEFUSE⟩] ∧ h4.length = 4 ∧ h4 ⊆ d := by
  intro ids
  induction ids with
  | nil =>
    intro d ps d' hd
    unfold dealPlayers at hd
    simp only [Option.some.injEq, Prod.mk.injEq] at hd
    obtain ⟨h1, h2⟩ := hd
    subst h1; subst h2
    exact ⟨rfl, fun x hx => hx, by simp⟩
  | cons i rest ih =>
    intro d ps d' hd
    unfold dealPlayers at hd
    cases hq : dealN 4 d with
    | none => rw [hq] at hd; simp at hd
    | some pr =>
      obtain ⟨hand, d2⟩ := pr
      rw [hq] at hd
      dsimp only at hd
      cases hr : dealPlayers rest d2 with
      | none => rw [hr] at hd; simp at hd
      | some pr2 =>
        obtain ⟨ps2, d3⟩ := pr2
        rw [hr] at hd
        simp only [Option.some.injEq, Prod.mk.injEq] at hd
        obtain ⟨h1, h2⟩ := hd
        rw [← h1, ← h2]
        obtain ⟨hlen, hperm⟩ := dealN_spec 4 d hand d2 hq
        obtain ⟨hlen2, hsub2, hps2⟩ := ih d2 ps2 d3 hr
        have hd2sub : d2 ⊆ d := by
          intro x hx
          exact hperm.symm.subset (by simp [hx])
        have hhand : hand ⊆ d := by
          intro x hx
          exact hperm.symm.subset (by simp [hx])
        refine ⟨by simp [hlen2], fun x hx => hd2sub (hsub2 hx), ?_⟩
        intro p hp
        rcases List.mem_cons.mp hp with rfl | hp2
        · exact ⟨rfl, hand, rfl, hlen, hhand⟩
        · obtain ⟨ha, h4, hh, hl4, hsub4⟩ := hps2 p hp2
          exact ⟨ha, h4, hh, hl4, fun x hx => hd2sub (hsub4 hx)⟩

/-- The dealing loop succeeds whenever the deck has 4 cards per id. -/
theorem dealPlayers_total : ∀ (ids : List Nat) (d : List Card),
    4 * ids.length ≤ d.length → (dealPlayers ids d).isSome = true := by
  intro ids
  induction ids with
  | nil => intro d _; rfl
  | cons i rest ih =>
    intro d hn
    simp only [List.length_cons] at hn
    have h4 : 4 ≤ d.length := by omega
    have := dealN_total 4 d h4
    unfold dealPlayers
    cases hq : dealN 4 d with
    | none => rw [hq] at this; simp at this
    | some pr =>
      obtain ⟨hand, d2⟩ := pr
      obtain ⟨hlen, hperm⟩ := dealN_spec 4 d hand d2 hq
      have hd2 : 4 * rest.length ≤ d2.length := by
        have := hperm.length_eq
        rw [List.length_append, hlen] at this
        omega
      have := ih d2 hd2
      cases hr : dealPlayers rest d2 with
      | none => rw [hr] at this; simp at this
      | some pr2 => simp [hr]

/-- The 46-card base deck contains neither hazards nor defuses. -/
theorem buildBaseDeck_clean :
    ∀ c ∈ buildBaseDeck, ¬ c.card_type = CardType.DEFUSE ∧
      ¬ c.card_type = CardType.EXPLODING_KITTEN := by decide

theorem buildBaseDeck_length : buildBaseDeck.length = 46 := by decide

/-- The best-child fold only ever moves to a child with a strictly
higher UCB1 value, so its result dominates every listed child. -/
theorem best_child_fold_ge (p : Nat) (e : ℝ) :
    ∀ (cs : List MCTSNode) (c : MCTSNode), ∀ y ∈ c :: cs,
      ucb1 p e y ≤ ucb1 p e (cs.foldl
        (fun best x => if ucb1 p e best < ucb1 p e x then x else best) c) := by
  intro cs
  induction cs with
  | nil =>
    intro c y hy
    rcases List.mem_singleton.mp hy with rfl
    exact le_refl _
  | cons x cs ih =>
    intro c y hy
    rw [List.foldl_cons]
    have hcf : ucb1 p e c ≤ ucb1 p e (if ucb1 p e c < ucb1 p e x then x else c) := by
      by_cases hlt : ucb1 p e c < ucb1 p e x
      · rw [if_pos hlt]; exact le_of_lt hlt
      · rw [if_neg hlt]
    have hxf : ucb1 p e x ≤ ucb1 p e (if ucb1 p e c < ucb1 p e x then x else c) := by
      by_cases hlt : ucb1 p e c < ucb1 p e x
      · rw [if_pos hlt]
      · rw [if_neg hlt]; exact le_of_not_lt hlt
    have hhead := ih (if ucb1 p e c < ucb1 p e x then x else c)
      (if ucb1 p e c < ucb1 p e x then x else c) (List.mem_cons_self _ _)
    rcases List.mem_cons.mp hy with rfl | hy2
    · exact le_trans hcf hhead
    · rcases List.mem_cons.mp hy2 with rfl | hy3
      · exact le_trans hxf hhead
      · exact ih _ y (List.mem_cons_of_mem _ hy3)

/-- A node whose UCB1 value is `⊤` must be unvisited. -/
theorem ucb1_top_visits (p : Nat) (e : ℝ) (n : MCTSNode)
    (h : ucb1 p e n = ⊤) : n.visits = 0 := by
  by_contra hv
  unfold ucb1 at h
  rw [if_neg hv] at h
  exact WithTop.coe_ne_top h

/-- With exploration constant 0, UCB1 of a visited node is exactly its
win ratio. -/
theorem ucb1_zero_exploration (p : Nat) (n : MCTSNode) (h : ¬ n.visits = 0) :
    ucb1 p 0 n = ((n.wins / (n.visits : ℝ) : ℝ) : WithTop ℝ) := by
  unfold ucb1
  rw [if_neg h]
  norm_num

/-- Setting within range then reading back gives the new player. -/
theorem getD_set_self (ps : List Player) (i : Nat) (q : Player)
    (h : i < ps.length) : (ps.set i q).getD i default = q := by
  rw [List.getD_eq_getElem?_getD]
  simp [List.getElem?_set, h]

/-- Exchanging one list entry exchanges exactly its contribution to a
mapped sum. -/
theorem sum_f_set : ∀ (ps : List Player) (i : Nat) (q : Player) (f : Player → Nat),
    i < ps.length →
    ((ps.set i q).map f).sum + f (ps.getD i default) = (ps.map f).sum + f q := by
  intro ps
  induction ps with
  | nil => intro i q f h; simp at h
  | cons p rest ih =>
    intro i q f h
    cases i with
    | zero => simp [List.set]; omega
    | succ j =>
      simp only [List.set, List.map_cons, List.sum_cons]
      have hj : j < rest.length := by simpa using h
      have := ih j q f hj
      have hget : (p :: rest).getD (j + 1) default = rest.getD j default := by
        simp [List.getD]
      rw [hget]
      omega

/-- Summing a function over the alive players equals summing its
alive-gated version over all players. -/
theorem sum_filter_alive (ps : List Player) (f : Player → Nat) :
    ((ps.filter (fun p => p.alive)).map f).sum
      = (ps.map (fun p => if p.alive then f p else 0)).sum := by
  induction ps with
  | nil => rfl
  | cons p rest ih =>
    by_cases hp : p.alive <;> simp [List.filter_cons, hp, ih]

/-- A successful removal shortens the hand by exactly one card. -/
theorem removeFirst_length : ∀ (h : List Card) (ct : CardType),
    ((removeFirst h ct).1).isSome = true →
    ((removeFirst h ct).2).length + 1 = h.length := by
  intro h
  induction h with
  | nil => intro ct hs; simp [removeFirst] at hs
  | cons c rest ih =>
    intro ct hs
    unfold removeFirst at hs ⊢
    by_cases hc : c.card_type = ct
    · simp [hc]
    · simp only [hc, if_false] at hs ⊢
      simp only [List.length_cons]
      have := ih ct (by simpa using hs)
      omega

/-- A hand with no card of a kind filters to nothing on that kind. -/
theorem hand_filter_none (h : List Card) (ct : CardType)
    (hno : h.any (fun c => c.card_type == ct) = false) :
    h.filter (fun c => c.card_type == ct) = [] := by
  rw [List.filter_eq_nil_iff]
  intro c hc
  intro hcontra
  rw [List.any_eq_false] at hno
  exact hno c hc hcontra

theorem end_turn_cardCount (g : Game) :
    (g.end_turn).state.cardCount = g.state.cardCount := by
  unfold GameState.cardCount
  rw [end_turn_players, end_turn_deck, end_turn_discard]

theorem cgo_cardCount (g : Game) :
    (g.check_game_over).state.cardCount = g.state.cardCount := by
  unfold GameState.cardCount
  rw [cgo_players, cgo_deck, cgo_discard]

theorem end_turn_ekCirc (g : Game) :
    (g.end_turn).state.ekInCirculation = g.state.ekInCirculation := by
  unfold GameState.ekInCirculation
  rw [end_turn_players, end_turn_deck]

theorem cgo_ekCirc (g : Game) :
    (g.check_game_over).state.ekInCirculation = g.state.ekInCirculation := by
  unfold GameState.ekInCirculation
  rw [cgo_players, cgo_deck]

/-- A list with a known last element splits off that element. -/
theorem getLast?_decomp (l : List Card) (c : Card) (h : l.getLast? = some c) :
    l = l.dropLast ++ [c] := by
  have hne : l ≠ [] := by intro he; rw [he] at h; simp at h
  have h2 := List.dropLast_append_getLast hne
  rw [List.getLast?_eq_getLast _ hne, Option.some.injEq] at h
  rw [← h]
  exact h2.symm

/-- Inserting with Python `list.insert` semantics always grows the
list by one, whatever the position. -/
theorem pyInsert_length (l : List Card) (pos : Nat) (c : Card) :
    (pyInsert l pos c).length = l.length + 1 := by
  simp [pyInsert]
  omega

/-- Drawing the exploding kitten while holding a defuse preserves the
total card count and the drawer's alive flag. -/
theorem do_draw_ek_defuse (rand : Rand) (g : Game)
    (hidx : g.state.current_player_idx < g.state.players.length)
    (htop : g.state.deck.getLast? = some ⟨CardType.EXPLODING_KITTEN⟩)
    (hdef : (g.state.current_player).has_card CardType.DEFUSE = true) :
    (g.do_draw rand).state.cardCount = g.state.cardCount ∧
    ((g.do_draw rand).state.players.getD g.state.current_player_idx default).alive
      = (g.state.current_player).alive := by
  have hne : g.state.deck ≠ [] := by intro he; rw [he] at htop; simp at htop
  have hemp : g.state.deck.isEmpty = false := by
    cases hd : g.state.deck with
    | nil => exact absurd hd hne
    | cons a as => rfl
  have hrs : ((removeFirst (g.state.current_player).hand CardType.DEFUSE).1).isSome
      = true := by
    rw [removeFirst_isSome]
    exact hdef
  have hrl := removeFirst_length (g.state.current_player).hand CardType.DEFUSE hrs
  unfold Game.do_draw
  rw [hemp]
  simp only [Bool.false_eq_true, if_false, htop, Option.getD_some]
  rw [if_pos trivial, if_pos hdef]
  constructor
  · rw [end_turn_cardCount]
    unfold GameState.cardCount GameState.insert_card GameState.setPlayer
      Player.remove_card
    simp only [pyInsert_length, List.length_append]
    have hsum := sum_f_set g.state.players g.state.current_player_idx
      ⟨(g.state.current_player).id,
        (removeFirst (g.state.current_player).hand CardType.DEFUSE).2,
        (g.state.current_player).alive⟩
      (fun p => p.hand.length) hidx
    simp only at hsum
    have hdl : g.state.deck.dropLast.length + 1 = g.state.deck.length := by
      rw [List.length_dropLast]
      have : g.state.deck.length ≠ 0 := by
        intro h0
        exact hne (List.length_eq_zero.mp h0)
      omega
    have htl : ((removeFirst (g.state.current_player).hand CardType.DEFUSE).1).toList.length
        = 1 := by
      cases ho : (removeFirst (g.state.current_player).hand CardType.DEFUSE).1 with
      | none => rw [ho] at hrs; simp at hrs
      | some c => simp
    have hcur : (g.state.players.getD g.state.current_player_idx default).hand.length
        = (g.state.current_player).hand.length := rfl
    rw [hcur] at hsum
    omega
  · rw [end_turn_players]
    unfold GameState.insert_card GameState.setPlayer Player.remove_card
    simp only
    rw [getD_set_self _ _ _ hidx]

/-- Drawing the exploding kitten with no defuse in hand eliminates the
player, discards the kitten, and removes exactly one exploding kitten
from circulation (deck plus alive hands) provided the drawer's hand
holds none — true of every reachable state. -/
theorem do_draw_ek_explode (rand : Rand) (g : Game)
    (hidx : g.state.current_player_idx < g.state.players.length)
    (htop : g.state.deck.getLast? = some ⟨CardType.EXPLODING_KITTEN⟩)
    (hdef : (g.state.current_player).has_card CardType.DEFUSE = false)
    (hnoek : (g.state.current_player).has_card CardType.EXPLODING_KITTEN = false)
    (halive : (g.state.current_player).alive = true) :
    ((g.do_draw rand).state.players.getD g.state.current_player_idx default).alive
      = false ∧
    (g.do_draw rand).state.discard
      = g.state.discard ++ [⟨CardType.EXPLODING_KITTEN⟩] ∧
    (g.do_draw rand).state.ekInCirculation + 1 = g.state.ekInCirculation := by
  have hne : g.state.deck ≠ [] := by intro he; rw [he] at htop; simp at htop
  have hemp : g.state.deck.isEmpty = false := by
    cases hd : g.state.deck with
    | nil => exact absurd hd hne
    | cons a as => rfl
  unfold Game.do_draw
  rw [hemp]
  simp only [Bool.false_eq_true, if_false, htop, Option.getD_some]
  rw [if_pos trivial, if_neg (by rw [hdef]; exact Bool.false_ne_true)]
  refine ⟨?_, ?_, ?_⟩
  · rw [end_turn_players]
    unfold GameState.setPlayer
    simp only
    rw [getD_set_self _ _ _ hidx]
  · rw [end_turn_discard]
    rfl
  · rw [end_turn_ekCirc]
    unfold GameState.ekInCirculation GameState.setPlayer
    simp only
    have hdeck : (g.state.deck.filter
        (fun c => c.card_type == CardType.EXPLODING_KITTEN)).length
        = (g.state.deck.dropLast.filter
          (fun c => c.card_type == CardType.EXPLODING_KITTEN)).length + 1 := by
      conv_lhs => rw [getLast?_decomp g.state.deck ⟨CardType.EXPLODING_KITTEN⟩ htop]
      rw [List.filter_append, List.length_append]
      simp
    have hsums := sum_filter_alive (g.state.players.set g.state.current_player_idx
      ⟨(g.state.current_player).id, (g.state.current_player).hand, false⟩)
      (fun p => (p.hand.filter (fun c => c.card_type == CardType.EXPLODING_KITTEN)).length)
    have hsums2 := sum_filter_alive g.state.players
      (fun p => (p.hand.filter (fun c => c.card_type == CardType.EXPLODING_KITTEN)).length)
    rw [hsums, hsums2]
    have hset := sum_f_set g.state.players g.state.current_player_idx
      ⟨(g.state.current_player).id, (g.state.current_player).hand, false⟩
      (fun p => if p.alive then
        (p.hand.filter (fun c => c.card_type == CardType.EXPLODING_KITTEN)).length
        else 0) hidx
    have hcur : g.state.players.getD g.state.current_player_idx default
        = g.state.current_player := rfl
    simp only [hcur, halive, if_true, Bool.false_eq_true, if_false] at hset
    have hzero : ((g.state.current_player).hand.filter
        (fun c => c.card_type == CardType.EXPLODING_KITTEN)).length = 0 := by
      rw [hand_filter_none _ _ hnoek]
      rfl
    rw [hzero] at hset
    omega

/-- `execute_action` on `Pass` is `_do_draw` followed by bookkeeping
that does not touch players, discard, card count or hazard count. -/
theorem exec_pass_eq (rand : Rand) (g : Game) :
    (g.execute_action rand Action.Pass).state.players
      = (g.do_draw rand).state.players ∧
    (g.execute_action rand Action.Pass).state.discard
      = (g.do_draw rand).state.discard ∧
    (g.execute_action rand Action.Pass).state.cardCount
      = (g.do_draw rand).state.cardCount ∧
    (g.execute_action rand Action.Pass).state.ekInCirculation
      = (g.do_draw rand).state.ekInCirculation := by
  unfold Game.execute_action
  exact ⟨cgo_players _, cgo_discard _, cgo_cardCount _, cgo_ekCirc _⟩

/-! ### Claim C4: hazard draw resolution -/

/-- Claim C4, confirmed: when the current player draws (`Pass`) and
the top deck card is the exploding kitten, then (a) holding a defuse
the total card count is preserved and the player stays alive (the
defuse goes to the discard and the kitten back into the deck), and
(b) holding no defuse (and, as in every reachable state, no kitten in
hand) the player is marked not alive, the kitten goes to the discard,
and the number of exploding kittens in the deck plus alive players'
hands drops by exactly one. -/
theorem C4_theorem (g : Game) (rand : Rand)
    (hidx : g.state.current_player_idx < g.state.players.length)
    (htop : g.state.deck.getLast? = some ⟨CardType.EXPLODING_KITTEN⟩)
    (halive : (g.state.current_player).alive = true) :
    ((g.state.current_player).has_card CardType.DEFUSE = true →
      (g.execute_action rand Action.Pass).state.cardCount = g.state.cardCount ∧
      ((g.execute_action rand Action.Pass).state.players.getD
        g.state.current_player_idx default).alive = true) ∧
    ((g.state.current_player).has_card CardType.DEFUSE = false →
      (g.state.current_player).has_card CardType.EXPLODING_KITTEN = false →
      ((g.execute_action rand Action.Pass).state.players.getD
        g.state.current_player_idx default).alive = false ∧
      (g.execute_action rand Action.Pass).state.discard
        = g.state.discard ++ [⟨CardType.EXPLODING_KITTEN⟩] ∧
      (g.execute_action rand Action.Pass).state.ekInCirculation + 1
        = g.state.ekInCirculation) := by
  obtain ⟨hp, hd, hcc, hek⟩ := exec_pass_eq rand g
  constructor
  · intro hdef
    obtain ⟨h1, h2⟩ := do_draw_ek_defuse rand g hidx htop hdef
    refine ⟨by rw [hcc, h1], ?_⟩
    rw [hp, h2]
    exact halive
  · intro hdef hnoek
    obtain ⟨h1, h2, h3⟩ := do_draw_ek_explode rand g hidx htop hdef hnoek halive
    exact ⟨by rw [hp, h1], by rw [hd, h2], by rw [hek, h3]⟩

/-- Claim C4, witness: a concrete game with the kitten on top of the
deck and a defuse in hand. -/
theorem C4_witness :
    let g : Game :=
      { num_players := 2,
        state := { players := [⟨0, [⟨CardType.DEFUSE⟩, ⟨CardType.NOPE⟩], true⟩,
                               ⟨1, [⟨CardType.SKIP⟩], true⟩],
                   deck := [⟨CardType.FAVOR⟩, ⟨CardType.EXPLODING_KITTEN⟩],
                   discard := [],
                   current_player_idx := 0, turns_remaining := 1, game_over := false,
                   winner := none, top_three_known_by := none },
        action_history := [] }
    ((g.state.current_player).has_card CardType.DEFUSE = true →
      (g.execute_action idRand Action.Pass).state.cardCount = g.state.cardCount ∧
      ((g.execute_action idRand Action.Pass).state.players.getD
        g.state.current_player_idx default).alive = true) ∧
    ((g.state.current_player).has_card CardType.DEFUSE = false →
      (g.state.current_player).has_card CardType.EXPLODING_KITTEN = false →
      ((g.execute_action idRand Action.Pass).state.players.getD
        g.state.current_player_idx default).alive = false ∧
      (g.execute_action idRand Action.Pass).state.discard
        = g.state.discard ++ [⟨CardType.EXPLODING_KITTEN⟩] ∧
      (g.execute_action idRand Action.Pass).state.ekInCirculation + 1
        = g.state.ekInCirculation) :=
  C4_theorem _ idRand (by decide) (by decide) (by decide)

/-- Shape analysis of legal actions: everything `get_legal_actions`
returns is `Pass`, a supported single-effect play, a favor against an
eligible opponent, or a cat pair against an eligible opponent. -/
theorem legal_cases (g : Game) (pid : Nat) (a : Action)
    (ha : a ∈ g.get_legal_actions pid) :
    a = Action.Pass ∨
    (∃ ct, a = Action.PlayCard ct none none ∧
      (ct = CardType.ATTACK ∨ ct = CardType.SKIP ∨ ct = CardType.SHUFFLE ∨
        ct = CardType.SEE_THE_FUTURE) ∧
      (g.state.players.getD pid default).has_card ct = true) ∨
    (∃ o ∈ g.state.players, a = Action.PlayCard CardType.FAVOR (some o.id) none ∧
      (g.state.players.getD pid default).has_card CardType.FAVOR = true ∧
      o.alive = true ∧ o.hand.length ≠ 0) ∨
    (∃ ct, ∃ o ∈ g.state.players, a = Action.PlayCatPair ct o.id ∧
      2 ≤ (g.state.players.getD pid default).count_card ct ∧
      o.alive = true ∧ o.hand.length ≠ 0) := by
  unfold Game.get_legal_actions at ha
  simp only [List.mem_append, List.mem_cons, List.mem_singleton, List.mem_map,
    List.mem_filter, List.mem_flatMap] at ha
  rcases ha with ((h | h) | h) | h
  · rcases h with h | h
    · exact Or.inl h
    · simp at h
  · obtain ⟨ct, hct, rfl⟩ := h
    refine Or.inr (Or.inl ⟨ct, rfl, ?_, hct.2⟩)
    rcases hct.1 with h | h | h | h | h
    · exact Or.inl h
    · exact Or.inr (Or.inl h)
    · exact Or.inr (Or.inr (Or.inl h))
    · exact Or.inr (Or.inr (Or.inr h))
    · simp at h
  · by_cases hf : (g.state.players.getD pid default).has_card CardType.FAVOR = true
    · rw [if_pos hf] at h
      simp only [List.mem_map, List.mem_filter] at h
      obtain ⟨o, ⟨ho, hcond⟩, rfl⟩ := h
      simp only [Bool.and_eq_true, bne_iff_ne, ne_eq] at hcond
      exact Or.inr (Or.inr (Or.inl ⟨o, ho, rfl, hf, hcond.1.2,
        by simpa using hcond.2⟩))
    · rw [if_neg hf] at h
      simp at h
  · obtain ⟨ct, hct, o, ⟨ho, hcond⟩, rfl⟩ := h
    simp only [Bool.and_eq_true, bne_iff_ne, ne_eq] at hcond
    refine Or.inr (Or.inr (Or.inr ⟨ct, o, ho, rfl, ?_, hcond.1.2,
      by simpa using hcond.2⟩))
    unfold Player.get_matching_cat_pairs at hct
    rw [List.mem_filter] at hct
    simpa using hct.2

/-- A kind with a positive filtered count is present in the hand. -/
theorem any_of_count (h : List Card) (ct : CardType)
    (hc : 0 < (h.filter (fun c => c.card_type == ct)).length) :
    h.any (fun c => c.card_type == ct) = true := by
  rw [List.length_pos] at hc
  obtain ⟨c, hmem⟩ := List.exists_mem_of_ne_nil _ hc
  rw [List.mem_filter] at hmem
  rw [List.any_eq_true]
  exact ⟨c, hmem.1, hmem.2⟩

/-- Removing one card of a kind lowers that kind's count by one. -/
theorem removeFirst_count : ∀ (h : List Card) (ct : CardType),
    0 < (h.filter (fun c => c.card_type == ct)).length →
    (((removeFirst h ct).2).filter (fun c => c.card_type == ct)).length + 1
      = (h.filter (fun c => c.card_type == ct)).length := by
  intro h
  induction h with
  | nil => intro ct hc; simp at hc
  | cons c rest ih =>
    intro ct hc
    unfold removeFirst
    by_cases hcc : c.card_type = ct
    · simp [List.filter_cons, hcc]
    · have hbeq : (c.card_type == ct) = false := by simp [hcc]
      simp only [hcc, if_false]
      simp only [List.filter_cons, hbeq, Bool.false_eq_true, if_false] at hc ⊢
      exact ih ct hc

/-- Removing a card leaves every other field of the state alone and
the kind test drives where the hand length goes; this is the combined
play-a-card bookkeeping step of `execute_action`: the removed card
moves from the hand to the discard, preserving the total count. -/
theorem remove_to_discard_cardCount (s : GameState) (ct : CardType)
    (hidx : s.current_player_idx < s.players.length)
    (hhas : (s.current_player).has_card ct = true) :
    (GameState.mk
      ((s.setPlayer s.current_player_idx ((s.current_player).remove_card ct).2).players)
      s.deck
      (s.discard ++ ((s.current_player).remove_card ct).1.toList)
      s.current_player_idx s.turns_remaining s.game_over s.winner
      s.top_three_known_by).cardCount = s.cardCount := by
  unfold GameState.cardCount GameState.setPlayer Player.remove_card
  simp only [List.length_append]
  have hrs : ((removeFirst (s.current_player).hand ct).1).isSome = true := by
    rw [removeFirst_isSome]; exact hhas
  have hrl := removeFirst_length (s.current_player).hand ct hrs
  have htl : ((removeFirst (s.current_player).hand ct).1).toList.length = 1 := by
    cases ho : (removeFirst (s.current_player).hand ct).1 with
    | none => rw [ho] at hrs; simp at hrs
    | some c => simp
  have hsum := sum_f_set s.players s.current_player_idx
    ⟨(s.current_player).id, (removeFirst (s.current_player).hand ct).2,
      (s.current_player).alive⟩ (fun p => p.hand.length) hidx
  simp only at hsum
  have hcur : (s.players.getD s.current_player_idx default).hand.length
      = (s.current_player).hand.length := rfl
  rw [hcur] at hsum
  omega

/-- The steal step never changes the total card count (the randomness
oracle must respect its bounds, as `random.randint` does). -/
theorem stealStep_cardCount (rand : Rand) (hrand : ValidRand rand)
    (s : GameState) (i t : Nat) (hi : i < s.players.length) :
    (stealStep rand s i t).cardCount = s.cardCount := by
  unfold stealStep
  dsimp only
  by_cases hh : (((s.players.getD t default).hand.length != 0) = true)
  · rw [if_pos hh]
    have hlen : 0 < (s.players.getD t default).hand.length := by
      simpa [Nat.pos_iff_ne_zero] using hh
    have ht : t < s.players.length := by
      by_contra hge
      rw [Nat.not_lt] at hge
      rw [List.getD_eq_getElem?_getD, List.getElem?_eq_none (by simpa using hge)] at hlen
      exact absurd hlen (by decide)
    have hk : rand.randint 0 ((s.players.getD t default).hand.length - 1)
        < (s.players.getD t default).hand.length := by
      have := (hrand.2 0 ((s.players.getD t default).hand.length - 1) (Nat.zero_le _)).2
      omega
    unfold GameState.cardCount GameState.setPlayer
    simp only
    have h1 := sum_f_set s.players t
      ⟨(s.players.getD t default).id,
        (s.players.getD t default).hand.eraseIdx
          (rand.randint 0 ((s.players.getD t default).hand.length - 1)),
        (s.players.getD t default).alive⟩ (fun p => p.hand.length) ht
    simp only at h1
    have hel : ((s.players.getD t default).hand.eraseIdx
        (rand.randint 0 ((s.players.getD t default).hand.length - 1))).length
        = (s.players.getD t default).hand.length - 1 := by
      rw [List.length_eraseIdx, if_pos hk]
    rw [hel] at h1
    have hi2 : i < (s.players.set t
        ⟨(s.players.getD t default).id,
          (s.players.getD t default).hand.eraseIdx
            (rand.randint 0 ((s.players.getD t default).hand.length - 1)),
          (s.players.getD t default).alive⟩).length := by
      rw [List.length_set]; exact hi
    have h2 := sum_f_set (s.players.set t
      ⟨(s.players.getD t default).id,
        (s.players.getD t default).hand.eraseIdx
          (rand.randint 0 ((s.players.getD t default).hand.length - 1)),
        (s.players.getD t default).alive⟩) i
      ⟨(((s.players.set t
          ⟨(s.players.getD t default).id,
            (s.players.getD t default).hand.eraseIdx
              (rand.randint 0 ((s.players.getD t default).hand.length - 1)),
            (s.players.getD t default).alive⟩).getD i default)).id,
        (((s.players.set t
          ⟨(s.players.getD t default).id,
            (s.players.getD t default).hand.eraseIdx
              (rand.randint 0 ((s.players.getD t default).hand.length - 1)),
            (s.players.getD t default).alive⟩).getD i default)).hand ++
          [(s.players.getD t default).hand.getD
            (rand.randint 0 ((s.players.getD t default).hand.length - 1)) default],
        (((s.players.set t
          ⟨(s.players.getD t default).id,
            (s.players.getD t default).hand.eraseIdx
              (rand.randint 0 ((s.players.getD t default).hand.length - 1)),
            (s.players.getD t default).alive⟩).getD i default)).alive⟩
      (fun p => p.hand.length) hi2
    simp only [List.length_append, List.length_singleton] at h2
    omega
  · rw [if_neg hh]

theorem do_attack_cardCount (g : Game) :
    (g.do_attack).state.cardCount = g.state.cardCount := rfl

theorem do_skip_cardCount (g : Game) :
    (g.do_skip).state.cardCount = g.state.cardCount := by
  unfold GameState.cardCount Game.do_skip Game.advance_player
  by_cases h : g.state.turns_remaining - 1 = 0 <;> simp [h]

theorem shuffle_cardCount (s : GameState) (f : List Card → List Card)
    (hf : (f s.deck).length = s.deck.length) :
    (s.shuffle_deck f).cardCount = s.cardCount := by
  unfold GameState.cardCount GameState.shuffle_deck
  simp [hf]

/-- `_do_draw` preserves the total card count in every branch. -/
theorem do_draw_cardCount (rand : Rand) (g : Game)
    (hidx : g.state.current_player_idx < g.state.players.length) :
    (g.do_draw rand).state.cardCount = g.state.cardCount := by
  by_cases hemp : g.state.deck.isEmpty = true
  · unfold Game.do_draw
    rw [hemp]
    simp only [if_true]
    exact end_turn_cardCount g
  · have hne : g.state.deck ≠ [] := by
      cases hd : g.state.deck with
      | nil => rw [hd] at hemp; simp at hemp
      | cons a as => simp
    have hfalse : g.state.deck.isEmpty = false := by
      simpa using hemp
    obtain ⟨c, hc⟩ : ∃ c, g.state.deck.getLast? = some c :=
      ⟨_, List.getLast?_eq_getLast _ hne⟩
    have hdlen : g.state.deck.dropLast.length + 1 = g.state.deck.length := by
      rw [List.length_dropLast]
      have : g.state.deck.length ≠ 0 := by
        intro h0; exact hne (List.length_eq_zero.mp h0)
      omega
    by_cases hek : c.card_type = CardType.EXPLODING_KITTEN
    · have htop : g.state.deck.getLast? = some ⟨CardType.EXPLODING_KITTEN⟩ := by
        rw [hc]
        cases c
        simp_all
      by_cases hdef : (g.state.current_player).has_card CardType.DEFUSE = true
      · exact (do_draw_ek_defuse rand g hidx htop hdef).1
      · unfold Game.do_draw
        rw [hfalse]
        simp only [Bool.false_eq_true, if_false, htop, Option.getD_some]
        rw [if_pos trivial,
          if_neg (by rw [Bool.not_eq_true] at hdef; rw [hdef]; exact Bool.false_ne_true)]
        rw [end_turn_cardCount]
        unfold GameState.cardCount GameState.setPlayer
        simp only [List.length_append, List.length_singleton]
        have hsum := sum_f_set g.state.players g.state.current_player_idx
          ⟨(g.state.current_player).id, (g.state.current_player).hand, false⟩
          (fun p => p.hand.length) hidx
        simp only at hsum
        have hcur : (g.state.players.getD g.state.current_player_idx default).hand.length
            = (g.state.current_player).hand.length := rfl
        rw [hcur] at hsum
        omega
    · unfold Game.do_draw
      rw [hfalse]
      simp only [Bool.false_eq_true, if_false, hc, Option.getD_some]
      rw [if_neg hek]
      rw [end_turn_cardCount]
      unfold GameState.cardCount GameState.setPlayer
      simp only [List.length_append, List.length_singleton]
      have hsum := sum_f_set g.state.players g.state.current_player_idx
        ⟨(g.state.current_player).id, (g.state.current_player).hand ++ [c],
          (g.state.current_player).alive⟩
        (fun p => p.hand.length) hidx
      simp only [List.length_append, List.length_singleton] at hsum
      have hcur : (g.state.players.getD g.state.current_player_idx default).hand.length
          = (g.state.current_player).hand.length := rfl
      rw [hcur] at hsum
      omega

/-- The cyclic alive search stays below the player count. -/
theorem findAlive_lt (ps : List Player) (num : Nat) (h0 : 0 < num) :
    ∀ fuel idx, idx < num → findAlive ps num fuel idx < num := by
  intro fuel
  induction fuel with
  | zero => intro idx h; exact h
  | succ k ih =>
    intro idx h
    unfold findAlive
    by_cases ha : (ps.getD idx default).alive = true
    · rw [if_pos ha]; exact h
    · rw [if_neg ha]
      exact ih _ (Nat.mod_lt _ h0)

theorem nextAliveIdx_lt (g : Game) (h0 : 0 < g.num_players) :
    g.nextAliveIdx < g.num_players := by
  unfold Game.nextAliveIdx
  exact findAlive_lt _ _ h0 _ _ (Nat.mod_lt _ h0)

theorem end_turn_idx_cases (g : Game) :
    (g.end_turn).state.current_player_idx = g.state.current_player_idx ∨
    (g.end_turn).state.current_player_idx = g.nextAliveIdx := by
  unfold Game.end_turn Game.advance_player Game.nextAliveIdx
  by_cases h : g.state.turns_remaining - 1 = 0
  · right; simp [h]
  · left; simp [h]

theorem do_skip_idx_cases (g : Game) :
    (g.do_skip).state.current_player_idx = g.state.current_player_idx ∨
    (g.do_skip).state.current_player_idx = g.nextAliveIdx := by
  unfold Game.do_skip Game.advance_player Game.nextAliveIdx
  by_cases h : g.state.turns_remaining - 1 = 0
  · right; simp [h]
  · left; simp [h]

theorem end_turn_idx_lt (g : Game) (h0 : 0 < g.num_players)
    (hidx : g.state.current_player_idx < g.num_players) :
    (g.end_turn).state.current_player_idx < g.num_players := by
  rcases end_turn_idx_cases g with h | h
  · rw [h]; exact hidx
  · rw [h]; exact nextAliveIdx_lt g h0

theorem do_skip_idx_lt (g : Game) (h0 : 0 < g.num_players)
    (hidx : g.state.current_player_idx < g.num_players) :
    (g.do_skip).state.current_player_idx < g.num_players := by
  rcases do_skip_idx_cases g with h | h
  · rw [h]; exact hidx
  · rw [h]; exact nextAliveIdx_lt g h0

theorem do_draw_idx_lt (rand : Rand) (g : Game) (h0 : 0 < g.num_players)
    (hidx : g.state.current_player_idx < g.num_players) :
    (g.do_draw rand).state.current_player_idx < g.num_players := by
  unfold Game.do_draw
  by_cases hemp : g.state.deck.isEmpty = true
  · rw [hemp]
    simp only [if_true]
    exact end_turn_idx_lt g h0 hidx
  · have hfalse : g.state.deck.isEmpty = false := by simpa using hemp
    rw [hfalse]
    simp only [Bool.false_eq_true, if_false]
    split
    · split
      · exact end_turn_idx_lt _ h0 hidx
      · exact end_turn_idx_lt _ h0 hidx
    · exact end_turn_idx_lt _ h0 hidx

theorem setPlayer_length (s : GameState) (i : Nat) (p : Player) :
    (s.setPlayer i p).players.length = s.players.length := by
  simp [GameState.setPlayer]

theorem stealStep_length (rand : Rand) (s : GameState) (i t : Nat) :
    (stealStep rand s i t).players.length = s.players.length := by
  unfold stealStep
  dsimp only
  split
  · simp [GameState.setPlayer]
  · rfl

theorem stealStep_idx (rand : Rand) (s : GameState) (i t : Nat) :
    (stealStep rand s i t).current_player_idx = s.current_player_idx := by
  unfold stealStep
  dsimp only
  split <;> rfl

theorem do_draw_length (rand : Rand) (g : Game) :
    (g.do_draw rand).state.players.length = g.state.players.length := by
  unfold Game.do_draw
  by_cases hemp : g.state.deck.isEmpty = true
  · rw [hemp]
    simp only [if_true]
    rw [end_turn_players]
  · have hfalse : g.state.deck.isEmpty = false := by simpa using hemp
    rw [hfalse]
    simp only [Bool.false_eq_true, if_false]
    split
    · split <;> (rw [end_turn_players]; simp [GameState.insert_card, GameState.setPlayer])
    · rw [end_turn_players]; simp [GameState.setPlayer]

theorem do_skip_players (g : Game) :
    (g.do_skip).state.players = g.state.players := by
  unfold Game.do_skip Game.advance_player
  by_cases h : g.state.turns_remaining - 1 = 0 <;> simp [h]

theorem exec_players_length (rand : Rand) (g : Game) (a : Action) :
    (g.execute_action rand a).state.players.length = g.state.players.length := by
  unfold Game.execute_action
  cases a with
  | Pass =>
    rw [cgo_players]
    exact do_draw_length rand g
  | PlayCard ct target steal =>
    cases ct <;> cases target <;>
      simp [cgo_players, do_skip_players, Game.do_attack, GameState.setPlayer,
        GameState.shuffle_deck, stealStep_length]
  | PlayCatPair ctype tid =>
    simp [cgo_players, stealStep_length, GameState.setPlayer]
  | PlayNope => rw [cgo_players]
  | InsertExplodingKitten pos =>
    rw [cgo_players]
    rfl

theorem exec_num_players (rand : Rand) (g : Game) (a : Action) :
    (g.execute_action rand a).num_players = g.num_players := by
  unfold Game.execute_action
  cases a with
  | Pass =>
    rw [cgo_num]
    unfold Game.do_draw
    by_cases hemp : g.state.deck.isEmpty = true
    · rw [hemp]; simp only [if_true]; rw [end_turn_num]
    · have hfalse : g.state.deck.isEmpty = false := by simpa using hemp
      rw [hfalse]
      simp only [Bool.false_eq_true, if_false]
      split
      · split <;> rw [end_turn_num]
      · rw [end_turn_num]
  | PlayCard ct target steal =>
    cases ct <;> cases target <;>
      simp [cgo_num, Game.do_attack, Game.do_skip, Game.advance_player] <;>
      split <;> rfl
  | PlayCatPair ctype tid => rw [cgo_num]
  | PlayNope => rw [cgo_num]
  | InsertExplodingKitten pos => rw [cgo_num]

theorem exec_idx_lt (rand : Rand) (g : Game) (a : Action) (hwf : WfGame g) :
    (g.execute_action rand a).state.current_player_idx < g.state.players.length := by
  obtain ⟨hidx, hnum⟩ := hwf
  have h0 : 0 < g.num_players := by omega
  have hidxn : g.state.current_player_idx < g.num_players := by omega
  rw [← hnum]
  unfold Game.execute_action
  cases a with
  | Pass =>
    rw [cgo_idx]
    exact do_draw_idx_lt rand g h0 hidxn
  | PlayCard ct target steal =>
    cases ct <;> cases target <;> rw [cgo_idx] <;>
      first
      | exact nextAliveIdx_lt _ h0
      | exact do_skip_idx_lt _ h0 hidxn
      | ((try rw [stealStep_idx]); exact hidxn)
  | PlayCatPair ctype tid =>
    rw [cgo_idx]
    rw [stealStep_idx]
    exact hidxn
  | PlayNope =>
    rw [cgo_idx]
    exact hidxn
  | InsertExplodingKitten pos =>
    rw [cgo_idx]
    exact hidxn

/-- `execute_action` preserves well-formedness. -/
theorem exec_wf (rand : Rand) (g : Game) (a : Action) (hwf : WfGame g) :
    WfGame (g.execute_action rand a) := by
  constructor
  · rw [exec_players_length]
    exact exec_idx_lt rand g a hwf
  · rw [exec_num_players, exec_players_length]
    exact hwf.2

/-- Playing a cat pair moves two cards out of the hand and two fresh
cards of the same kind onto the discard, preserving the count. -/
theorem catpair_cardCount (s : GameState) (ct : CardType)
    (hidx : s.current_player_idx < s.players.length)
    (hcnt : 2 ≤ (s.current_player).count_card ct) :
    (GameState.mk
      ((s.setPlayer s.current_player_idx
        ((((s.current_player).remove_card ct).2).remove_card ct).2).players)
      s.deck
      (s.discard ++ [⟨ct⟩, ⟨ct⟩])
      s.current_player_idx s.turns_remaining s.game_over s.winner
      s.top_three_known_by).cardCount = s.cardCount := by
  simp only [Player.count_card] at hcnt
  have hc1 : 0 < ((s.current_player).hand.filter
      (fun c => c.card_type == ct)).length := by
    omega
  have hs1 : ((removeFirst (s.current_player).hand ct).1).isSome = true := by
    rw [removeFirst_isSome]
    exact any_of_count _ _ hc1
  have hl1 := removeFirst_length (s.current_player).hand ct hs1
  have hcount := removeFirst_count (s.current_player).hand ct hc1
  have hc2 : 0 < (((removeFirst (s.current_player).hand ct).2).filter
      (fun c => c.card_type == ct)).length := by omega
  have hs2 : ((removeFirst ((removeFirst (s.current_player).hand ct).2) ct).1).isSome
      = true := by
    rw [removeFirst_isSome]
    exact any_of_count _ _ hc2
  have hl2 := removeFirst_length ((removeFirst (s.current_player).hand ct).2) ct hs2
  unfold GameState.cardCount GameState.setPlayer Player.remove_card
  simp only [List.length_append, List.length_cons, List.length_nil]
  have hsum := sum_f_set s.players s.current_player_idx
    ⟨(s.current_player).id,
      (removeFirst ((removeFirst (s.current_player).hand ct).2) ct).2,
      (s.current_player).alive⟩ (fun p => p.hand.length) hidx
  simp only at hsum
  have hcur : (s.players.getD s.current_player_idx default).hand.length
      = (s.current_player).hand.length := rfl
  rw [hcur] at hsum
  omega

/-- The conservation core: executing any LEGAL action preserves the
total card count (deck + all hands + discard). -/
theorem exec_legal_cardCount (rand : Rand) (hrand : ValidRand rand) (g : Game)
    (hwf : WfGame g) (a : Action)
    (ha : a ∈ g.get_legal_actions g.state.current_player_idx) :
    (g.execute_action rand a).state.cardCount = g.state.cardCount := by
  obtain ⟨hidx, hnum⟩ := hwf
  rcases legal_cases g _ a ha with rfl | ⟨ct, rfl, hct, hhas⟩ |
    ⟨o, ho, rfl, hfav, halv, hol⟩ | ⟨ct, o, ho, rfl, hcnt, halv, hol⟩
  · unfold Game.execute_action
    rw [cgo_cardCount]
    exact do_draw_cardCount rand g hidx
  · unfold Game.execute_action
    rw [cgo_cardCount]
    rcases hct with rfl | rfl | rfl | rfl
    · rw [do_attack_cardCount]
      exact remove_to_discard_cardCount g.state CardType.ATTACK hidx hhas
    · rw [do_skip_cardCount]
      exact remove_to_discard_cardCount g.state CardType.SKIP hidx hhas
    · refine (shuffle_cardCount _ rand.shuffle ?_).trans
        (remove_to_discard_cardCount g.state CardType.SHUFFLE hidx hhas)
      exact (hrand.1 _).length_eq
    · exact remove_to_discard_cardCount g.state CardType.SEE_THE_FUTURE hidx hhas
  · unfold Game.execute_action
    rw [cgo_cardCount]
    refine (stealStep_cardCount rand hrand _ _ _ ?_).trans
      (remove_to_discard_cardCount g.state CardType.FAVOR hidx hfav)
    simpa [GameState.setPlayer] using hidx
  · unfold Game.execute_action
    rw [cgo_cardCount]
    refine (stealStep_cardCount rand hrand _ _ _ ?_).trans
      (catpair_cardCount g.state ct hidx hcnt)
    simpa [GameState.setPlayer] using hidx

/-- The identity oracle is valid. -/
theorem validRand_idRand : ValidRand idRand :=
  ⟨fun l => List.Perm.refl l, fun a _ h => ⟨le_refl a, h⟩⟩

/-- Setup produces a well-formed game whenever there is a player. -/
theorem setup_wf (shuffle : List Card → List Card) (n : Nat) (hn : 1 ≤ n)
    (g : Game) (hs : Game.setup shuffle n = some g) : WfGame g := by
  unfold Game.setup at hs
  cases hdp : dealPlayers (List.range n) (shuffle buildBaseDeck) with
  | none => rw [hdp] at hs; simp at hs
  | some pr =>
    obtain ⟨ps, deck2⟩ := pr
    rw [hdp] at hs
    simp only [Option.some.injEq] at hs
    obtain ⟨hlen, -, -⟩ := dealPlayers_spec _ _ _ _ hdp
    rw [List.length_range] at hlen
    constructor
    · rw [← hs]
      show 0 < ps.length
      omega
    · rw [← hs]
      show n = ps.length
      omega

/-! ### Claim C1: card-count conservation -/

/-- Claim C1, counterexample.  The dead `InsertExplodingKitten` branch
of `execute_action` mints a brand-new card into the deck, so this one
call (never produced by `get_legal_actions`) grows the total count by
one — refuting "every execute_action call leaves this sum unchanged". -/
theorem C1_counterexample :
    let g : Game :=
      { num_players := 2,
        state := { players := [⟨0, [], true⟩, ⟨1, [], true⟩],
                   deck := [⟨CardType.SKIP⟩], discard := [],
                   current_player_idx := 0, turns_remaining := 1, game_over := false,
                   winner := none, top_three_known_by := none },
        action_history := [] }
    (g.execute_action idRand (Action.InsertExplodingKitten 0)).state.cardCount
      = g.state.cardCount + 1 := by decide

/-- Claim C1, amended: restricted to the actions `get_legal_actions`
returns (which never include `InsertExplodingKitten`), conservation
holds — every state reachable from a freshly set-up game by legal
actions has the same `deck + all hands + discard` total as the state
right after setup, and each legal `execute_action` call preserves it. -/
theorem C1_theorem (shuffle : List Card → List Card) (n : Nat) (hn : 1 ≤ n)
    (g0 : Game) (hsetup : Game.setup shuffle n = some g0)
    (g : Game) (hreach : ReachableFrom g0 g) :
    g.state.cardCount = g0.state.cardCount ∧
    ∀ (rand : Rand) (a : Action), ValidRand rand →
      a ∈ g.get_legal_actions g.state.current_player_idx →
      (g.execute_action rand a).state.cardCount = g.state.cardCount := by
  have hwf0 := setup_wf shuffle n hn g0 hsetup
  have key : g.state.cardCount = g0.state.cardCount ∧ WfGame g := by
    induction hreach with
    | refl => exact ⟨rfl, hwf0⟩
    | step g2 rand a hr hv hl ih =>
      obtain ⟨hcc, hwf⟩ := ih
      exact ⟨(exec_legal_cardCount rand hv g2 hwf a hl).trans hcc,
        exec_wf rand g2 a hwf⟩
  exact ⟨key.1, fun rand a hv hl => exec_legal_cardCount rand hv g key.2 a hl⟩

/-- Claim C1, witness: the freshly set-up 2-player game (identity
shuffle) with a concrete legal `Pass` call. -/
theorem C1_witness :
    (1 ≤ 2 ∧ Game.setup id 2 = some ((Game.setup id 2).getD default)) ∧
    ValidRand idRand ∧
    Action.Pass ∈ ((Game.setup id 2).getD default).get_legal_actions
      ((Game.setup id 2).getD default).state.current_player_idx ∧
    (((Game.setup id 2).getD default).execute_action idRand Action.Pass).state.cardCount
      = ((Game.setup id 2).getD default).state.cardCount :=
  ⟨⟨by omega, by rfl⟩, validRand_idRand, by decide,
    (C1_theorem id 2 (by omega) _ (by rfl) _
      (ReachableFrom.refl _)).2 idRand Action.Pass validRand_idRand (by decide)⟩

/-- Popping `n` from a sufficient pool takes exactly `n` cards. -/
theorem popMany_spec : ∀ (n : Nat) (pool : List Card), n ≤ pool.length →
    (popMany n pool).1.length = n ∧ (popMany n pool).2.length = pool.length - n := by
  intro n
  induction n with
  | zero => intro pool _; exact ⟨rfl, rfl⟩
  | succ k ih =>
    intro pool hn
    have hne : pool ≠ [] := by
      intro he; rw [he] at hn; simp at hn
    unfold popMany
    rw [List.getLast?_eq_getLast _ hne]
    have hdl : pool.dropLast.length = pool.length - 1 := by
      rw [List.length_dropLast]
    have hk : k ≤ pool.dropLast.length := by omega
    obtain ⟨h1, h2⟩ := ih pool.dropLast hk
    dsimp only
    constructor
    · simp [h1]
    · rw [h2, hdl]
      omega

/-- Mapped-getD commutation for in-range indices. -/
theorem getD_map_player (f : Player → Player) (l : List Player) (i : Nat)
    (hi : i < l.length) : (l.map f).getD i default = f (l.getD i default) := by
  rw [List.getD_eq_getElem?_getD, List.getD_eq_getElem?_getD, List.getElem?_map,
    List.getElem?_eq_getElem hi]
  rfl

/-- What the redistribution loop does to each position, provided the
pool can cover every opponent's original hand size: every alive
opponent's hand grows by exactly its original size, and every other
player is left untouched. -/
theorem redistribute_spec (orig : List Player) (obs : Nat) :
    ∀ (ps : List Player) (pool : List Card),
    ((ps.filter (fun p => (p.id != obs) && p.alive)).map
      (fun p => (orig.getD p.id default).hand.length)).sum ≤ pool.length →
    (redistribute orig obs ps pool).1.length = ps.length ∧
    (∀ i, i < ps.length →
      (((((ps.getD i default).id != obs) && (ps.getD i default).alive) = true →
        ((redistribute orig obs ps pool).1.getD i default).hand.length
          = (ps.getD i default).hand.length
            + (orig.getD (ps.getD i default).id default).hand.length) ∧
      (¬ ((((ps.getD i default).id != obs) && (ps.getD i default).alive) = true) →
        (redistribute orig obs ps pool).1.getD i default = ps.getD i default))) := by
  intro ps
  induction ps with
  | nil =>
    intro pool hsuf
    refine ⟨rfl, ?_⟩
    intro i hi
    simp at hi
  | cons p rest ih =>
    intro pool hsuf
    unfold redistribute
    by_cases hp : ((p.id != obs) && p.alive) = true
    · rw [if_pos hp]
      rw [List.filter_cons, if_pos hp, List.map_cons, List.sum_cons] at hsuf
      have hn : (orig.getD p.id default).hand.length ≤ pool.length := by omega
      obtain ⟨ht, hrest⟩ := popMany_spec (orig.getD p.id default).hand.length pool hn
      have hsuf2 : ((rest.filter (fun p => (p.id != obs) && p.alive)).map
          (fun p => (orig.getD p.id default).hand.length)).sum
          ≤ (popMany (orig.getD p.id default).hand.length pool).2.length := by
        rw [hrest]
        omega
      obtain ⟨ihlen, ihspec⟩ := ih _ hsuf2
      dsimp only
      constructor
      · rw [List.length_cons, List.length_cons, ihlen]
      · intro i hi
        cases i with
        | zero =>
          constructor
          · intro hcond
            have hget : ((p :: rest).getD 0 default) = p := rfl
            rw [hget]
            show (p.hand ++ (popMany (orig.getD p.id default).hand.length pool).1).length
              = p.hand.length + (orig.getD p.id default).hand.length
            rw [List.length_append, ht]
          · intro hcond
            exact absurd hp hcond
        | succ j =>
          have hj : j < rest.length := by simpa using hi
          have hg1 : ((p :: rest).getD (j + 1) default) = rest.getD j default := rfl
          obtain ⟨hpos, hneg⟩ := ihspec j hj
          rw [hg1]
          exact ⟨fun hc => hpos hc, fun hc => hneg hc⟩
    · rw [if_neg hp]
      rw [List.filter_cons, if_neg hp] at hsuf
      obtain ⟨ihlen, ihspec⟩ := ih pool hsuf
      dsimp only
      constructor
      · rw [List.length_cons, List.length_cons, ihlen]
      · intro i hi
        cases i with
        | zero =>
          constructor
          · intro hcond
            exact absurd hcond hp
          · intro hcond
            rfl
        | succ j =>
          have hj : j < rest.length := by simpa using hi
          obtain ⟨hpos, hneg⟩ := ihspec j hj
          exact ⟨fun hc => hpos hc, fun hc => hneg hc⟩

/-- With player ids matching their indices, looking a member up by its
id gives the member back. -/
theorem getD_of_mem (orig : List Player)
    (hids : ∀ i, i < orig.length → (orig.getD i default).id = i) :
    ∀ p ∈ orig, orig.getD p.id default = p := by
  intro p hp
  obtain ⟨j, hj, hget⟩ := List.mem_iff_getElem.mp hp
  have hgd : orig.getD j default = p := by
    rw [List.getD_eq_getElem?_getD, List.getElem?_eq_getElem hj]
    simpa using hget
  have hpj : p.id = j := by rw [← hgd]; exact hids j hj
  rw [hpj, hgd]

/-- The total size the redistribution needs equals the size of the
pooled opponents' hands. -/
theorem determinize_suf (orig : List Player) (obs : Nat)
    (hids : ∀ i, i < orig.length → (orig.getD i default).id = i) :
    (((orig.map (fun p => if (p.id != obs) && p.alive
        then { p with hand := ([] : List Card) } else p)).filter
        (fun p => (p.id != obs) && p.alive)).map
      (fun p => (orig.getD p.id default).hand.length)).sum
      = (((orig.filter (fun p => (p.id != obs) && p.alive)).map
          (fun p => p.hand)).flatten).length := by
  have hfp : ∀ p : Player,
      (((if (p.id != obs) && p.alive then { p with hand := ([] : List Card) }
        else p).id != obs) &&
        (if (p.id != obs) && p.alive then { p with hand := ([] : List Card) }
          else p).alive)
      = ((p.id != obs) && p.alive) := by
    intro p
    by_cases hp : ((p.id != obs) && p.alive) = true
    · rw [if_pos hp]
    · rw [if_neg hp]
  have hfilters : (orig.map (fun p => if (p.id != obs) && p.alive
      then { p with hand := ([] : List Card) } else p)).filter
      (fun p => (p.id != obs) && p.alive)
      = (orig.filter (fun p => (p.id != obs) && p.alive)).map
        (fun p => if (p.id != obs) && p.alive
          then { p with hand := ([] : List Card) } else p) := by
    rw [List.filter_map]
    congr 1
    apply List.filter_congr
    intro x _
    exact hfp x
  rw [hfilters, List.map_map, List.length_flatten, List.map_map]
  apply congrArg List.sum
  apply List.map_congr_left
  intro p hp
  have hmem : p ∈ orig := (List.mem_filter.mp hp).1
  have hpred : ((p.id != obs) && p.alive) = true := (List.mem_filter.mp hp).2
  simp only [Function.comp_apply]
  rw [if_pos hpred]
  show (orig.getD p.id default).hand.length = p.hand.length
  rw [getD_of_mem orig hids p hmem]

/-- What determinization's redistribution yields positionally: the
observer's entry is untouched and each alive opponent ends with its
original hand size. -/
theorem determinize_core (orig : List Player) (obs : Nat) (pool : List Card)
    (hids : ∀ i, i < orig.length → (orig.getD i default).id = i)
    (hobs : obs < orig.length)
    (hsuf : (((orig.map (fun p => if (p.id != obs) && p.alive
        then { p with hand := ([] : List Card) } else p)).filter
        (fun p => (p.id != obs) && p.alive)).map
      (fun p => (orig.getD p.id default).hand.length)).sum ≤ pool.length) :
    ((redistribute orig obs (orig.map (fun p => if (p.id != obs) && p.alive
        then { p with hand := ([] : List Card) } else p)) pool).1.getD obs
        default)
      = orig.getD obs default ∧
    (∀ i, i < orig.length → i ≠ obs → (orig.getD i default).alive = true →
      ((redistribute orig obs (orig.map (fun p => if (p.id != obs) && p.alive
          then { p with hand := ([] : List Card) } else p)) pool).1.getD i
          default).hand.length
        = (orig.getD i default).hand.length) := by
  obtain ⟨hrlen, hrspec⟩ := redistribute_spec orig obs
    (orig.map (fun p => if (p.id != obs) && p.alive
      then { p with hand := ([] : List Card) } else p)) pool hsuf
  have hmlen : ∀ j, j < orig.length → j < (orig.map
      (fun p => if (p.id != obs) && p.alive
        then { p with hand := ([] : List Card) } else p)).length := by
    intro j hj
    simpa using hj
  constructor
  · have hido : (orig.getD obs default).id = obs := hids obs hobs
    have hcond : (((orig.getD obs default).id != obs) &&
        (orig.getD obs default).alive) = false := by
      rw [hido]
      simp
    have hnc : ¬ ((((orig.getD obs default).id != obs) &&
        (orig.getD obs default).alive) = true) := by
      rw [hcond]
      exact Bool.false_ne_true
    have hmap_obs : (orig.map (fun p => if (p.id != obs) && p.alive
        then { p with hand := ([] : List Card) } else p)).getD obs default
        = orig.getD obs default := by
      rw [getD_map_player _ _ _ hobs]
      try dsimp only
      rw [if_neg hnc]
    have hneg := (hrspec obs (hmlen obs hobs)).2
    rw [hmap_obs] at hneg
    exact hneg (by rw [hcond]; simp)
  · intro i hi hne halive
    have hidi : (orig.getD i default).id = i := hids i hi
    have hcond : (((orig.getD i default).id != obs) &&
        (orig.getD i default).alive) = true := by
      rw [hidi, halive]
      simp [hne]
    have hmap_i : (orig.map (fun p => if (p.id != obs) && p.alive
        then { p with hand := ([] : List Card) } else p)).getD i default
        = { orig.getD i default with hand := ([] : List Card) } := by
      rw [getD_map_player _ _ _ hi]
      try dsimp only
      rw [if_pos hcond]
    have hpos := (hrspec i (hmlen i hi)).1
    rw [hmap_i] at hpos
    have hres := hpos hcond
    rw [hres]
    show ([] : List Card).length + (orig.getD (orig.getD i default).id
      default).hand.length = (orig.getD i default).hand.length
    rw [hidi]
    simp

/-! ### Claim C5: determinization fidelity -/

/-- Claim C5, confirmed: `determinize_game` leaves the observer's own
hand exactly as it is; when the observer holds the known-top-3 fact
and the deck has at least 3 cards, the top three deck cards keep their
identities and order; and every alive opponent is dealt exactly as
many cards as it holds in the true state.  (Player ids index the
player list, as in every game the engine builds.) -/
theorem C5_theorem (shuffle : List Card → List Card)
    (hsh : ∀ l, List.Perm (shuffle l) l) (g : Game) (observer_id : Nat)
    (hids : ∀ i, i < g.state.players.length →
      (g.state.players.getD i default).id = i)
    (hobs : observer_id < g.state.players.length) :
    ((determinize_game shuffle g observer_id).state.players.getD observer_id
        default).hand
      = (g.state.players.getD observer_id default).hand ∧
    (g.state.top_three_known_by = some observer_id → 3 ≤ g.state.deck.length →
      ((determinize_game shuffle g observer_id).state.deck).drop
        (((determinize_game shuffle g observer_id).state.deck).length - 3)
        = g.state.deck.drop (g.state.deck.length - 3)) ∧
    (∀ i, i < g.state.players.length → i ≠ observer_id →
      (g.state.players.getD i default).alive = true →
      ((determinize_game shuffle g observer_id).state.players.getD i
          default).hand.length
        = (g.state.players.getD i default).hand.length) := by
  have hsufgen : ∀ tail : List Card,
      (((g.state.players.map (fun p => if (p.id != observer_id) && p.alive
          then { p with hand := ([] : List Card) } else p)).filter
          (fun p => (p.id != observer_id) && p.alive)).map
        (fun p => (g.state.players.getD p.id default).hand.length)).sum
      ≤ (shuffle ((((g.state.players.filter
          (fun p => (p.id != observer_id) && p.alive)).map
          (fun p => p.hand)).flatten) ++ tail)).length := by
    intro tail
    rw [(hsh _).length_eq, List.length_append]
    rw [determinize_suf g.state.players observer_id hids]
    omega
  unfold determinize_game
  dsimp only
  by_cases hkeep : ((g.state.top_three_known_by == some observer_id) &&
      decide (3 ≤ g.state.deck.length)) = true
  · simp only [hkeep, if_true]
    obtain ⟨hcore1, hcore3⟩ := determinize_core g.state.players observer_id
      (shuffle ((((g.state.players.filter
        (fun p => (p.id != observer_id) && p.alive)).map
        (fun p => p.hand)).flatten) ++
        g.state.deck.take (g.state.deck.length - 3))) hids hobs (hsufgen _)
    refine ⟨by rw [hcore1], ?_, fun i hi hne halive => hcore3 i hi hne halive⟩
    intro h1 h2
    have ht3len : (g.state.deck.drop (g.state.deck.length - 3)).length = 3 := by
      rw [List.length_drop]
      omega
    rw [List.length_append, ht3len, Nat.add_sub_cancel]
    exact List.drop_left _ _
  · have hkf : ((g.state.top_three_known_by == some observer_id) &&
        decide (3 ≤ g.state.deck.length)) = false := by
      simpa using hkeep
    simp only [hkf, Bool.false_eq_true, if_false]
    obtain ⟨hcore1, hcore3⟩ := determinize_core g.state.players observer_id
      (shuffle ((((g.state.players.filter
        (fun p => (p.id != observer_id) && p.alive)).map
        (fun p => p.hand)).flatten) ++ g.state.deck)) hids hobs (hsufgen _)
    refine ⟨by rw [hcore1], ?_, fun i hi hne halive => hcore3 i hi hne halive⟩
    intro h1 h2
    exfalso
    rw [h1] at hkf
    simp [h2] at hkf

/-- Claim C5, witness: a concrete 2-player game where the observer
knows the top three of a 4-card deck. -/
theorem C5_witness :
    let g : Game :=
      { num_players := 2,
        state := { players := [⟨0, [⟨CardType.DEFUSE⟩, ⟨CardType.NOPE⟩], true⟩,
                               ⟨1, [⟨CardType.SKIP⟩, ⟨CardType.FAVOR⟩], true⟩],
                   deck := [⟨CardType.CAT_TACOCAT⟩, ⟨CardType.SHUFFLE⟩,
                            ⟨CardType.ATTACK⟩, ⟨CardType.SEE_THE_FUTURE⟩],
                   discard := [],
                   current_player_idx := 0, turns_remaining := 1, game_over := false,
                   winner := none, top_three_known_by := some 0 },
        action_history := [] }
    ((determinize_game id g 0).state.players.getD 0 default).hand
      = (g.state.players.getD 0 default).hand ∧
    (g.state.top_three_known_by = some 0 → 3 ≤ g.state.deck.length →
      ((determinize_game id g 0).state.deck).drop
        (((determinize_game id g 0).state.deck).length - 3)
        = g.state.deck.drop (g.state.deck.length - 3)) ∧
    (∀ i, i < g.state.players.length → i ≠ 0 →
      (g.state.players.getD i default).alive = true →
      ((determinize_game id g 0).state.players.getD i default).hand.length
        = (g.state.players.getD i default).hand.length) :=
  C5_theorem id (fun l => List.Perm.refl l) _ 0 (by decide) (by decide)

/-! ### Claim C8: UCB1 selection -/

/-- Claim C8, confirmed: an unvisited node has UCB1 value `+∞` and
strictly dominates every visited sibling, so whenever the children
contain an unvisited node `best_child` selects an unvisited one; and
with exploration constant 0, between two children with equal positive
visit counts `best_child` returns the one with the strictly higher
win ratio, in either listing order. -/
theorem C8_theorem (p : Nat) (e : ℝ) (a b x : MCTSNode) (xs : List MCTSNode)
    (ha : a.visits = 0) (hb : ¬ b.visits = 0)
    (hx : ∃ y ∈ x :: xs, y.visits = 0)
    (c d : MCTSNode) (hcd : c.visits = d.visits) (hpos : 0 < d.visits)
    (hr : d.wins / (d.visits : ℝ) < c.wins / (c.visits : ℝ)) :
    ucb1 p e a = ⊤ ∧
    ucb1 p e b < ucb1 p e a ∧
    ((best_child p e (x :: xs)).getD default).visits = 0 ∧
    best_child p 0 [c, d] = some c ∧
    best_child p 0 [d, c] = some c := by
  have hc : ¬ c.visits = 0 := by omega
  have hd : ¬ d.visits = 0 := by omega
  have hatop : ucb1 p e a = ⊤ := by unfold ucb1; rw [if_pos ha]
  have hblt : ucb1 p e b < ucb1 p e a := by
    rw [hatop]
    unfold ucb1
    rw [if_neg hb]
    exact WithTop.coe_lt_top _
  have hdc : ucb1 p 0 d < ucb1 p 0 c := by
    rw [ucb1_zero_exploration p c hc, ucb1_zero_exploration p d hd]
    exact_mod_cast hr
  refine ⟨hatop, hblt, ?_, ?_, ?_⟩
  · obtain ⟨y, hy, hy0⟩ := hx
    have hytop : ucb1 p e y = ⊤ := by unfold ucb1; rw [if_pos hy0]
    have hge := best_child_fold_ge p e xs x y hy
    rw [hytop] at hge
    have htop := top_le_iff.mp hge
    apply ucb1_top_visits p e
    unfold best_child
    simpa using htop
  · unfold best_child
    simp only [List.foldl_cons, List.foldl_nil, Option.some.injEq]
    rw [if_neg (not_lt_of_lt hdc)]
  · unfold best_child
    simp only [List.foldl_cons, List.foldl_nil, Option.some.injEq]
    rw [if_pos hdc]

/-- Claim C8, witness: concrete nodes — an unvisited node against a
visited one, and a 2-visit 2-win node against a 2-visit 1-win node. -/
theorem C8_witness :
    ucb1 5 1 ⟨0, 0⟩ = ⊤ ∧
    ucb1 5 1 ⟨2, 1⟩ < ucb1 5 1 ⟨0, 0⟩ ∧
    ((best_child 5 1 [⟨0, 0⟩, ⟨2, 1⟩]).getD default).visits = 0 ∧
    best_child 5 0 [⟨2, 2⟩, ⟨2, 1⟩] = some ⟨2, 2⟩ ∧
    best_child 5 0 [⟨2, 1⟩, ⟨2, 2⟩] = some ⟨2, 2⟩ :=
  C8_theorem 5 1 ⟨0, 0⟩ ⟨2, 1⟩ ⟨0, 0⟩ [⟨2, 1⟩] rfl (by norm_num)
    ⟨⟨0, 0⟩, List.mem_cons_self _ _, rfl⟩ ⟨2, 2⟩ ⟨2, 1⟩ rfl (by norm_num)
    (by norm_num)

/-! ### Claim C6: there is no setup validation -/

/-- Claim C6, counterexample.  The claim says construction with fewer
than 2 players fails with `ConfigError` before any state is created,
and that setup succeeds for every `num_players ≥ 2`.  The source has
no validation at all: setup succeeds for 1 (and even 0) players, and
for 12 players the deal exhausts the 46-card base deck and setup
fails (Python `IndexError`) instead of succeeding. -/
theorem C6_counterexample :
    (Game.setup id 1).isSome = true ∧
    (Game.setup id 0).isSome = true ∧
    (Game.setup id 12).isSome = false := by decide

/-- Claim C6, amended: the constructor performs no validation of
`num_players`; construction succeeds exactly while the 46-card base
deck can supply 4 cards per player (so also for 0 or 1 players, and
not beyond 11).  On success each player is dealt 4 base-deck cards
(never a defuse, never an exploding kitten) plus 1 defuse, and the
deck receives exactly `num_players - 1` exploding kittens. -/
theorem C6_theorem (shuffle : List Card → List Card)
    (hsh : ∀ l, List.Perm (shuffle l) l) (n : Nat) (hn : n ≤ 11) :
    ∃ g, Game.setup shuffle n = some g ∧
      g.num_players = n ∧
      g.state.players.length = n ∧
      (∀ p ∈ g.state.players, p.alive = true ∧ p.hand.length = 5 ∧
        ∃ h4, p.hand = h4 ++ [⟨CardType.DEFUSE⟩] ∧ h4.length = 4 ∧
          ∀ c ∈ h4, ¬ c.card_type = CardType.DEFUSE ∧
            ¬ c.card_type = CardType.EXPLODING_KITTEN) ∧
      (g.state.deck.filter
        (fun c => c.card_type == CardType.EXPLODING_KITTEN)).length = n - 1 := by
  have hblen : (shuffle buildBaseDeck).length = 46 := by
    rw [(hsh buildBaseDeck).length_eq, buildBaseDeck_length]
  have htot : (dealPlayers (List.range n) (shuffle buildBaseDeck)).isSome = true := by
    apply dealPlayers_total
    rw [List.length_range, hblen]
    omega
  unfold Game.setup
  cases hdp : dealPlayers (List.range n) (shuffle buildBaseDeck) with
  | none => rw [hdp] at htot; simp at htot
  | some pr =>
    obtain ⟨ps, deck2⟩ := pr
    obtain ⟨hlen, hsub, hps⟩ :=
      dealPlayers_spec (List.range n) (shuffle buildBaseDeck) ps deck2 hdp
    have hmem : ∀ c ∈ shuffle buildBaseDeck,
        ¬ c.card_type = CardType.DEFUSE ∧
        ¬ c.card_type = CardType.EXPLODING_KITTEN := by
      intro c hc
      exact buildBaseDeck_clean c ((hsh buildBaseDeck).subset hc)
    refine ⟨_, rfl, rfl, by simpa [List.length_range] using hlen, ?_, ?_⟩
    · intro p hp
      obtain ⟨ha, h4, hh, hl4, hsub4⟩ := hps p hp
      refine ⟨ha, by simp [hh, hl4], h4, hh, hl4, ?_⟩
      intro c hc
      exact hmem c (hsub4 hc)
    · have hek2 : (deck2.filter
          (fun c => c.card_type == CardType.EXPLODING_KITTEN)).length = 0 := by
        rw [List.filter_eq_nil_iff.mpr]
        · rfl
        · intro c hc
          simp only [beq_iff_eq]
          exact (hmem c (hsub hc)).2
      have hek3 : ((deck2 ++ List.replicate DEFUSE_IN_DECK
          (⟨CardType.DEFUSE⟩ : Card)).filter
          (fun c => c.card_type == CardType.EXPLODING_KITTEN)).length = 0 := by
        rw [List.filter_append, List.length_append, hek2, List.filter_replicate]
        simp
      have hek4 : ((shuffle (deck2 ++ List.replicate DEFUSE_IN_DECK
          (⟨CardType.DEFUSE⟩ : Card))).filter
          (fun c => c.card_type == CardType.EXPLODING_KITTEN)).length = 0 := by
        rw [((hsh _).filter _).length_eq]
        exact hek3
      simp only []
      rw [((hsh _).filter _).length_eq, List.filter_append, List.length_append, hek4,
        List.filter_replicate]
      simp

/-- Claim C6, witness: the amended setup property at `n = 2` with the
identity shuffle. -/
theorem C6_witness :
    2 ≤ 11 ∧
    ∃ g, Game.setup id 2 = some g ∧
      g.num_players = 2 ∧
      g.state.players.length = 2 ∧
      (∀ p ∈ g.state.players, p.alive = true ∧ p.hand.length = 5 ∧
        ∃ h4, p.hand = h4 ++ [⟨CardType.DEFUSE⟩] ∧ h4.length = 4 ∧
          ∀ c ∈ h4, ¬ c.card_type = CardType.DEFUSE ∧
            ¬ c.card_type = CardType.EXPLODING_KITTEN) ∧
      (g.state.deck.filter
        (fun c => c.card_type == CardType.EXPLODING_KITTEN)).length = 2 - 1 :=
  ⟨by omega, C6_theorem id (fun l => List.Perm.refl l) 2 (by omega)⟩

/-! ### Claim C7: clearing of the known-top fact -/

/-- Claim C7, counterexample.  The claim says any insertion at the top
of the deck clears the known-top fact; in the code `insert_card` never
touches `top_three_known_by`, so after an insert at the top position
(deck length) the fact is still set. -/
theorem C7_counterexample :
    let s : GameState :=
      { players := [⟨0, [], true⟩, ⟨1, [], true⟩],
        deck := [⟨CardType.SKIP⟩, ⟨CardType.NOPE⟩], discard := [],
        current_player_idx := 0, turns_remaining := 1, game_over := false,
        winner := none, top_three_known_by := some 0 }
    (s.insert_card ⟨CardType.DEFUSE⟩ 2).top_three_known_by = some 0 ∧
      ¬ (s.insert_card ⟨CardType.DEFUSE⟩ 2).top_three_known_by = none := by
  constructor
  · rfl
  · intro h
    simp [GameState.insert_card] at h

/-- Claim C7, amended: shuffling the deck always clears the known-top
fact, but `insert_card` (including the exploding-kitten reinsertion
after a defuse) leaves `top_three_known_by` unchanged, so the fact can
refer to stale deck contents after an insertion. -/
theorem C7_theorem (s : GameState) (f : List Card → List Card) (c : Card) (p : Nat) :
    (s.shuffle_deck f).top_three_known_by = none ∧
    (s.insert_card c p).top_three_known_by = s.top_three_known_by := ⟨rfl, rfl⟩

/-! ### Claim C3: there is no illegal-action rejection -/

/-- Claim C3, counterexample.  From a concrete state where the current
player's hand is a single defuse card, `PlayCard ATTACK` is not among
the legal actions, yet `execute_action` raises nothing and mutates the
state (the attack effect runs: the turn passes to player 1 with two
turns pending). -/
theorem C3_counterexample :
    let g : Game :=
      { num_players := 2,
        state := { players := [⟨0, [⟨CardType.DEFUSE⟩], true⟩, ⟨1, [⟨CardType.NOPE⟩], true⟩],
                   deck := [⟨CardType.SKIP⟩], discard := [],
                   current_player_idx := 0, turns_remaining := 1, game_over := false,
                   winner := none, top_three_known_by := none },
        action_history := [] }
    (Action.PlayCard CardType.ATTACK none none ∉ g.get_legal_actions 0) ∧
    (g.execute_action idRand (Action.PlayCard CardType.ATTACK none none)).state
      ≠ g.state ∧
    (g.execute_action idRand
      (Action.PlayCard CardType.ATTACK none none)).state.turns_remaining = 2 := by
  decide

/-- Claim C3, amended: no `IllegalActionError` exists and
`execute_action` performs no legality check — an action outside
`get_legal_actions` is not rejected and not coerced into a different
action but simply applied (the counterexample; an illegal action
naming an out-of-range or missing FAVOR/cat-pair target instead dies
with the source's `IndexError`/`TypeError`, still not an
`IllegalActionError`).  For actions inside `get_legal_actions`, in a
well-formed state whose player ids index the player list — where the
source raises nothing — `execute_action` is a total function that
applies exactly the given action and records it unchanged in
`action_history`.  The hypotheses delimit the states and actions on
which the source runs without raising, which is where the embedding
is faithful. -/
theorem C3_theorem (rand : Rand) (g : Game) (a : Action)
    (_hidx : g.state.current_player_idx < g.state.players.length)
    (_hids : ∀ i, i < g.state.players.length →
      (g.state.players.getD i default).id = i)
    (_ha : a ∈ g.get_legal_actions g.state.current_player_idx) :
    (g.execute_action rand a).action_history
      = g.action_history ++ [((g.state.current_player).id, a)] := by
  unfold Game.execute_action
  cases a with
  | Pass => simp [cgo_history, do_draw_history]
  | PlayCard ct target steal =>
    cases ct <;> cases target <;>
      simp [cgo_history, do_skip_history, do_attack_history]
  | PlayCatPair ctype tid => simp [cgo_history]
  | PlayNope => simp [cgo_history]
  | InsertExplodingKitten pos => simp [cgo_history]

/-- Claim C3, witness: a concrete well-formed game executing the
always-legal `Pass`. -/
theorem C3_witness :
    let g : Game :=
      { num_players := 2,
        state := { players := [⟨0, [⟨CardType.DEFUSE⟩], true⟩,
                               ⟨1, [⟨CardType.NOPE⟩], true⟩],
                   deck := [⟨CardType.SKIP⟩], discard := [],
                   current_player_idx := 0, turns_remaining := 1, game_over := false,
                   winner := none, top_three_known_by := none },
        action_history := [] }
    (g.execute_action idRand Action.Pass).action_history
      = g.action_history ++ [((g.state.current_player).id, Action.Pass)] :=
  C3_theorem idRand _ Action.Pass (by decide) (by decide) (by decide)

/-! ### Claim C2: attack never stacks -/

/-- Claim C2, counterexample.  The claim says a second attack played
while `turns_remaining` is already 2 raises it to 3 without changing
the current player; the code instead always resets it to 2 and moves
to the next alive player. -/
theorem C2_counterexample :
    let g : Game :=
      { num_players := 2,
        state := { players := [⟨0, [⟨CardType.ATTACK⟩], true⟩, ⟨1, [⟨CardType.NOPE⟩], true⟩],
                   deck := [⟨CardType.SKIP⟩], discard := [],
                   current_player_idx := 0, turns_remaining := 2, game_over := false,
                   winner := none, top_three_known_by := none },
        action_history := [] }
    (g.execute_action idRand
        (Action.PlayCard CardType.ATTACK none none)).state.turns_remaining = 2 ∧
    (g.execute_action idRand
        (Action.PlayCard CardType.ATTACK none none)).state.current_player_idx = 1 := by
  decide

/-- Claim C2, amended: playing an attack card discards it, ends the
acting player's turn without drawing (the deck is untouched) and
unconditionally sets `turns_remaining` to 2 for the next alive player;
in particular a second attack played while `turns_remaining` is
already greater than 1 does NOT stack further — it again yields 2 and
again advances to the next alive player. -/
theorem C2_theorem (g : Game) (rand : Rand)
    (hatk : (g.state.current_player).has_card CardType.ATTACK = true) :
    ((g.execute_action rand
       (Action.PlayCard CardType.ATTACK none none)).state.turns_remaining = 2) ∧
    ((g.execute_action rand
       (Action.PlayCard CardType.ATTACK none none)).state.deck = g.state.deck) ∧
    ((g.execute_action rand
       (Action.PlayCard CardType.ATTACK none none)).state.current_player_idx
      = g.nextAliveIdx) ∧
    ((g.execute_action rand
       (Action.PlayCard CardType.ATTACK none none)).state.discard
      = g.state.discard ++ ((g.state.current_player.remove_card CardType.ATTACK).1).toList) ∧
    ((g.state.current_player.remove_card CardType.ATTACK).1).isSome = true := by
  refine ⟨?_, ?_, ?_, ?_, ?_⟩
  · simp [Game.execute_action, cgo_turns, Game.do_attack]
  · simp [Game.execute_action, cgo_deck, Game.do_attack, GameState.setPlayer]
  · simp only [Game.execute_action, cgo_idx, Game.do_attack, Game.nextAliveIdx,
      GameState.setPlayer]
    apply findAlive_congr
    apply map_alive_set
    rfl
  · simp [Game.execute_action, cgo_discard, Game.do_attack, GameState.setPlayer]
  · rw [Player.remove_card]
    simp only [removeFirst_isSome]
    exact hatk

/-- Claim C2, witness: the amended attack behaviour evaluated on a
concrete two-player game whose current player holds an attack card. -/
theorem C2_witness :
    let g : Game :=
      { num_players := 2,
        state := { players := [⟨0, [⟨CardType.ATTACK⟩, ⟨CardType.DEFUSE⟩], true⟩,
                               ⟨1, [⟨CardType.NOPE⟩], true⟩],
                   deck := [⟨CardType.SKIP⟩, ⟨CardType.FAVOR⟩], discard := [],
                   current_player_idx := 0, turns_remaining := 2, game_over := false,
                   winner := none, top_three_known_by := none },
        action_history := [] }
    ((g.execute_action idRand
       (Action.PlayCard CardType.ATTACK none none)).state.turns_remaining = 2) ∧
    ((g.execute_action idRand
       (Action.PlayCard CardType.ATTACK none none)).state.deck = g.state.deck) ∧
    ((g.execute_action idRand
       (Action.PlayCard CardType.ATTACK none none)).state.current_player_idx
      = g.nextAliveIdx) ∧
    ((g.execute_action idRand
       (Action.PlayCard CardType.ATTACK none none)).state.discard
      = g.state.discard ++ ((g.state.current_player.remove_card CardType.ATTACK).1).toList) ∧
    ((g.state.current_player.remove_card CardType.ATTACK).1).isSome = true :=
  C2_theorem _ idRand (by decide)

/-! ### Claim C10: Pass on an empty deck is safe -/

/-- Claim C10, confirmed: executing `Pass` with an empty deck draws
nothing and eliminates nobody — players (hands and alive flags), deck
and discard are all unchanged — while the turn still ends:
`turns_remaining` is decremented, and when it reaches 0 the turn
passes to the next alive player with the counter reset to 1. -/
theorem C10_theorem (g : Game) (rand : Rand) (hdeck : g.state.deck = []) :
    ((g.execute_action rand Action.Pass).state.players = g.state.players) ∧
    ((g.execute_action rand Action.Pass).state.deck = []) ∧
    ((g.execute_action rand Action.Pass).state.discard = g.state.discard) ∧
    (g.state.turns_remaining - 1 = 0 →
      (g.execute_action rand Action.Pass).state.turns_remaining = 1 ∧
      (g.execute_action rand Action.Pass).state.current_player_idx = g.nextAliveIdx) ∧
    (g.state.turns_remaining - 1 ≠ 0 →
      (g.execute_action rand Action.Pass).state.turns_remaining
        = g.state.turns_remaining - 1 ∧
      (g.execute_action rand Action.Pass).state.current_player_idx
        = g.state.current_player_idx) := by
  have hemp : g.state.deck.isEmpty = true := by simp [hdeck]
  refine ⟨?_, ?_, ?_, ?_, ?_⟩
  · simp [Game.execute_action, cgo_players, Game.do_draw, hemp, end_turn_players]
  · simp [Game.execute_action, cgo_deck, Game.do_draw, hemp, end_turn_deck, hdeck]
  · simp [Game.execute_action, cgo_discard, Game.do_draw, hemp, end_turn_discard]
  · intro ht
    have h1 := (end_turn_turns g).1 ht
    constructor
    · simp [Game.execute_action, cgo_turns, Game.do_draw, hemp]
      exact h1.1
    · simp [Game.execute_action, cgo_idx, Game.do_draw, hemp]
      exact h1.2
  · intro ht
    have h1 := (end_turn_turns g).2 ht
    constructor
    · simp [Game.execute_action, cgo_turns, Game.do_draw, hemp]
      exact h1.1
    · simp [Game.execute_action, cgo_idx, Game.do_draw, hemp]
      exact h1.2

/-- Claim C10, witness: a concrete empty-deck game on which the
theorem's hypotheses hold and the conclusions evaluate. -/
theorem C10_witness :
    let g : Game :=
      { num_players := 2,
        state := { players := [⟨0, [⟨CardType.NOPE⟩], true⟩, ⟨1, [], true⟩],
                   deck := [], discard := [⟨CardType.SKIP⟩],
                   current_player_idx := 0, turns_remaining := 1, game_over := false,
                   winner := none, top_three_known_by := none },
        action_history := [] }
    ((g.execute_action idRand Action.Pass).state.players = g.state.players) ∧
    ((g.execute_action idRand Action.Pass).state.deck = []) ∧
    ((g.execute_action idRand Action.Pass).state.discard = g.state.discard) ∧
    (g.state.turns_remaining - 1 = 0 →
      (g.execute_action idRand Action.Pass).state.turns_remaining = 1 ∧
      (g.execute_action idRand Action.Pass).state.current_player_idx = g.nextAliveIdx) ∧
    (g.state.turns_remaining - 1 ≠ 0 →
      (g.execute_action idRand Action.Pass).state.turns_remaining
        = g.state.turns_remaining - 1 ∧
      (g.execute_action idRand Action.Pass).state.current_player_idx
        = g.state.current_player_idx) :=
  C10_theorem _ idRand (by decide)

/-! ### Claim C9: bounded playouts -/

/-- Claim C9, confirmed: both playout functions execute at most
`max_moves` actions, and whenever the playout ends without the game
having reached a terminal state they return `none` ("no winner")
rather than failing — given the invariant, true of every state the
engine produces, that a winner is only recorded when the game is over. -/
theorem C9_theorem (rand : Rand) (choice heur : Game → List Action → Action)
    (g : Game) (max_moves : Nat) (h : winnerConsistent g) :
    (simulate_random_playout rand choice g max_moves).2 ≤ max_moves ∧
    ((playoutLoop rand choice max_moves g).1.is_over = false →
      (simulate_random_playout rand choice g max_moves).1 = none) ∧
    (simulate_with_heuristics rand heur g max_moves).2 ≤ max_moves ∧
    ((playoutLoop rand heur max_moves g).1.is_over = false →
      (simulate_with_heuristics rand heur g max_moves).1 = none) := by
  obtain ⟨h1, h2⟩ := playoutLoop_spec rand choice max_moves g h
  obtain ⟨h3, h4⟩ := playoutLoop_spec rand heur max_moves g h
  exact ⟨h1, fun hov => h2 hov, h3, fun hov => h4 hov⟩

/-- Claim C9, witness: the bound evaluated on a concrete game with an
always-Pass policy and a 3-move cap. -/
theorem C9_witness :
    let g : Game :=
      { num_players := 2,
        state := { players := [⟨0, [⟨CardType.NOPE⟩], true⟩, ⟨1, [], true⟩],
                   deck := [⟨CardType.SKIP⟩, ⟨CardType.FAVOR⟩], discard := [],
                   current_player_idx := 0, turns_remaining := 1, game_over := false,
                   winner := none, top_three_known_by := none },
        action_history := [] }
    let passPolicy : Game → List Action → Action := fun _ _ => Action.Pass
    (simulate_random_playout idRand passPolicy g 3).2 ≤ 3 ∧
    ((playoutLoop idRand passPolicy 3 g).1.is_over = false →
      (simulate_random_playout idRand passPolicy g 3).1 = none) ∧
    (simulate_with_heuristics idRand passPolicy g 3).2 ≤ 3 ∧
    ((playoutLoop idRand passPolicy 3 g).1.is_over = false →
      (simulate_with_heuristics idRand passPolicy g 3).1 = none) :=
  C9_theorem idRand _ _ _ 3 (by intro h; rfl)

end EK
